import Mathlib

/-!
Verification development for the agent core of the doma.play housing-market
simulation (src/src/agent.rs).  The tenant and landlord step procedures, the
desirability scoring function and the landlord trend estimator are embedded
shallowly:

* `usize` counters become `Nat`; `f32` attribute fields (rent observations,
  condition, parcel desirability, areas, decay draws) are modelled exactly as
  rationals; the transient `f32` arithmetic of the desirability score
  (square roots, the 1/32 power, Euclidean distances) is modelled exactly
  over the reals.
* Code that can panic (index out of range, unsigned-subtraction underflow,
  `Result::unwrap`) is modelled with `Option`, `none` standing for a panic.
* The thread-local random generator (`rand::thread_rng()`) used by both agent
  step functions is modelled by passing the drawn values (tenant unit samples,
  per-unit decay draws) explicitly as arguments.

The types `Position` and `Unit` live in `grid.rs` / `city.rs`, which are not
part of the sources; their fields are modelled from the spec (spec.md §3) and
from their uses in `agent.rs` / `main.rs` and are marked as such below.
-/

namespace DomaPlay

noncomputable section

/-- Modelled from the spec: `grid.rs` is not among the sources.  Spec §3:
"Position: a pair of integer coordinates".  This is corroborated by
`agent.rs` line 17, which squares the coordinate differences with the integer
`pow` and only then casts the sum to `f64`. -/
structure Position where
  a : ℤ
  b : ℤ
deriving DecidableEq, Repr

/-- `distance` (agent.rs lines 16-18): Euclidean distance between two
positions, `(((a.0 - b.0).pow(2) + (a.1 - b.1).pow(2)) as f64).sqrt()`,
modelled exactly over the reals. -/
def distance (p q : Position) : ℝ :=
  Real.sqrt ((((p.a - q.a) ^ 2 + (p.b - q.b) ^ 2 : ℤ) : ℝ))

/-- Modelled from the spec: `city.rs` is not among the sources.  Spec §3 lists
the unit fields; `occupancy` (the capacity, "max occupants") is the name used
by `main.rs` line 42.  Mutable numeric `f32` fields are modelled as `ℚ`. -/
structure Unit where
  pos : Position
  rent : ℕ
  area : ℚ
  condition : ℚ
  leaseMonth : ℕ
  monthsVacant : ℕ
  tenants : Finset ℕ
  occupancy : ℕ
deriving DecidableEq

/-- Modelled from the spec: `city.rs` is not among the sources.  Spec §3/§26:
the vacancy pool holds units with `tenants.len() < capacity`, and a unit is
dropped from the pool when `vacancies() == 0`; so `vacancies` is the number of
free occupant slots.  Returned as an integer because `agent.rs` line 84
compares it with `<= 0`. -/
def Unit.vacancies (u : Unit) : ℤ :=
  (u.occupancy : ℤ) - (u.tenants.card : ℤ)

/-- Modelled from the spec: `city.rs` is not among the sources.  Spec §3:
"Parcel: position key; a scalar desirability attribute; optional neighborhood
identifier". -/
structure Parcel where
  desirability : ℚ
  neighborhood : Option ℕ
deriving DecidableEq

/-- Modelled from the spec: the city storage (`city.rs`) is not among the
sources.  `units` models the `Vec<Unit>` indexed by unit id, `parcels` the
`HashMap<Position, Parcel>` as an association list. -/
structure City where
  units : List Unit
  parcels : List (Position × Parcel)
deriving DecidableEq

/-- `city.parcels[&pos]` — HashMap indexing; `none` models the panic on a
missing key. -/
def City.parcel (c : City) (pos : Position) : Option Parcel :=
  (c.parcels.find? (fun p => p.1 == pos)).map (fun p => p.2)

/-- `Tenant` (agent.rs lines 27-34).  `units` is the informational history
field (unused by `step`). -/
structure Tenant where
  id : ℕ
  income : ℕ
  unit : Option ℕ
  work : Position
  units : List ℕ
deriving DecidableEq

/-- `MIN_AREA` (agent.rs line 9). -/
def MIN_AREA : ℚ := 50

/-- `TENANT_SAMPLE_SIZE` (agent.rs line 11). -/
def TENANT_SAMPLE_SIZE : ℕ := 30

/-- `TREND_MONTHS` (agent.rs line 12). -/
def TREND_MONTHS : ℕ := 12

/-- `RENT_INCREASE_RATE` (agent.rs line 13): 1.05. -/
def RENT_INCREASE_RATE : ℚ := 21 / 20

/-- `MOVING_PENALTY` (agent.rs line 14). -/
def MOVING_PENALTY : ℝ := 10

/-- The commute factor of the score (agent.rs lines 129-134): `1` at distance
zero, otherwise the reciprocal of the distance. -/
def commuteTerm (work pos : Position) : ℝ :=
  let d := distance work pos
  if d = 0 then 1 else 1 / d

/-- `Tenant::desirability` (agent.rs lines 116-137).  `rent / n_tenants` is
truncating natural division exactly as in Rust; the `f32` arithmetic of the
score itself is modelled over `ℝ`. -/
def Tenant.desirability (t : Tenant) (u : Unit) (p : Parcel) : ℝ :=
  let rent := u.rent
  let nTenants := u.tenants.card + 1
  let rentPerTenant := max 1 (rent / nTenants)
  if t.income < rentPerTenant then 0
  else
    let ratio := Real.sqrt ((t.income : ℝ) / (rentPerTenant : ℝ))
    let spaciousness :=
      (max ((u.area : ℝ) / (nTenants : ℝ) - (MIN_AREA : ℝ)) 0) ^ ((1 : ℝ) / 32)
    let commute := commuteTerm t.work u.pos
    ratio * (spaciousness + (p.desirability : ℝ) + (u.condition : ℝ) + commute)

/-- The guarded lease-elapsed computation of the tenant step (agent.rs lines
59-63): `if month > unit.lease_month { month - unit.lease_month } else { 0 }`.
Total — the guard prevents the unsigned-subtraction underflow. -/
def tenantElapsed (month leaseMonth : ℕ) : ℕ :=
  if month > leaseMonth then month - leaseMonth else 0

/-- Rust `usize` subtraction: panics (here `none`) on underflow.  Used by the
unguarded `month - unit.lease_month` in `Landlord::step` (agent.rs line
198). -/
def checkedSub (m n : ℕ) : Option ℕ :=
  if n ≤ m then some (m - n) else none

/-- The three vacate lines shared by the eviction branch (agent.rs lines
71-72) and the move branch (lines 98-100): remove the tenant id from the
unit's occupant set and push the unit id onto the vacancy pool. -/
def vacate (tid uId : ℕ) (city : City) (pool : List ℕ) :
    Option (City × List ℕ) :=
  (city.units[uId]?).bind (fun u =>
    some ({ city with
              units := city.units.set uId { u with tenants := u.tenants.erase tid } },
          pool ++ [uId]))

/-- Validity of a `choose_multiple` draw from the vacancy pool (agent.rs lines
79-80): `rand` returns `min(TENANT_SAMPLE_SIZE, pool.len())` elements drawn
without replacement from distinct positions of the pool vector, so the sample
is (as a multiset of unit ids) contained in the pool. -/
def sampleOk (sample pool : List ℕ) : Prop :=
  sample.length = min TENANT_SAMPLE_SIZE pool.length ∧
    ∀ x ∈ sample, sample.count x ≤ pool.count x

instance (sample pool : List ℕ) : Decidable (sampleOk sample pool) := by
  unfold sampleOk; infer_instance

/-- The body of the fold over the sampled units (agent.rs lines 81-94): a
sampled unit with no free slot is skipped, otherwise it replaces the
accumulator when its desirability strictly exceeds the accumulated best. -/
def foldBody (t : Tenant) (city : City) (acc : ℕ × ℝ) (uId : ℕ) :
    Option (ℕ × ℝ) :=
  (city.units[uId]?).bind (fun u =>
    (city.parcel u.pos).bind (fun p =>
      if u.vacancies ≤ 0 then some acc
      else if t.desirability u p > acc.2 then some (uId, t.desirability u p)
      else some acc))

/-- The fold over the sampled units from an arbitrary accumulator. -/
def foldGo (t : Tenant) (city : City) (sample : List ℕ) (acc : ℕ × ℝ) :
    Option (ℕ × ℝ) :=
  sample.foldlM (foldBody t city) acc

/-- The fold over the sampled units (agent.rs lines 81-94): starting from
`(0, 0.)`, keep the first-seen sampled unit with a free slot whose
desirability strictly exceeds the accumulator. -/
def foldStep (t : Tenant) (city : City) (sample : List ℕ) : Option (ℕ × ℝ) :=
  foldGo t city sample ((0 : ℕ), (0 : ℝ))

/-- The search-and-move block of `Tenant::step` (agent.rs lines 78-113), run
when `reconsider` is true: sample the pool, fold for the best candidate, and
move when `best_desirability > 0 && best_desirability - moving_penalty >
current_desirability` — vacating the old unit (if any), occupying the new one
and dropping it from the pool when it becomes full. -/
def Tenant.search (t : Tenant) (city : City) (pool : List ℕ)
    (sample : List ℕ) (movingPenalty currentDesirability : ℝ) :
    Option (Tenant × City × List ℕ) :=
  if pool.length > 0 then
    if sampleOk sample pool then
      (foldStep t city sample).bind (fun best =>
        if best.2 > 0 ∧ best.2 - movingPenalty > currentDesirability then
          (match t.unit with
            | some uId => vacate t.id uId city pool
            | none => some (city, pool)).bind (fun cp =>
            (cp.1.units[best.1]?).bind (fun u =>
              let u' := { u with tenants := insert t.id u.tenants }
              let city₂ := { cp.1 with units := cp.1.units.set best.1 u' }
              let pool₂ :=
                if u'.vacancies = 0 then cp.2.filter (fun j => j ≠ best.1) else cp.2
              some ({ t with unit := some best.1 }, city₂, pool₂)))
        else some (t, city, pool))
    else none
  else some (t, city, pool)

/-- `Tenant::step` (agent.rs lines 37-114).  Unhoused tenants always search
with no moving penalty and `current_desirability = -1`; housed tenants search
at a 12-month lease boundary (penalty 10, `current_desirability` left at its
initial `0.`), and otherwise evaluate their unit: on a score of exactly 0 they
vacate and search in the same call (the code leaves `moving_penalty` at 10 and
`current_desirability` at the computed 0). -/
def Tenant.step (t : Tenant) (city : City) (month : ℕ) (pool : List ℕ)
    (sample : List ℕ) : Option (Tenant × City × List ℕ) :=
  match t.unit with
  | none => Tenant.search t city pool sample 0 (-1)
  | some uId =>
    (city.units[uId]?).bind (fun u =>
      if tenantElapsed month u.leaseMonth > 0 ∧
          tenantElapsed month u.leaseMonth % 12 = 0 then
        Tenant.search t city pool sample MOVING_PENALTY 0
      else
        (city.parcel u.pos).bind (fun p =>
          if t.desirability u p = 0 then
            (vacate t.id uId city pool).bind (fun cp =>
              Tenant.search { t with unit := none } cp.1 cp.2 sample MOVING_PENALTY 0)
          else some (t, city, pool)))

/-- A second definition following the SPEC's words, for comparison with the
code: spec §4.2 says a housed tenant whose score has fallen to 0 "immediately
vacates … and re-searches this same month with no moving penalty (treated like
the unhoused case for the search that follows)" — i.e. the search after the
eviction runs with a moving penalty of 0. -/
def specEvictionStep (t : Tenant) (uId : ℕ) (city : City) (pool : List ℕ)
    (sample : List ℕ) : Option (Tenant × City × List ℕ) :=
  (vacate t.id uId city pool).bind (fun cp =>
    Tenant.search { t with unit := none } cp.1 cp.2 sample 0 0)

/-- The per-unit condition update of the landlord maintenance loop (agent.rs
lines 180-183): subtract `decay * 0.1`, add the maintenance rate, clamp to
[0, 1]. -/
def maintainUnit (maintenance decay : ℚ) (u : Unit) : Unit :=
  { u with condition := min (max (u.condition - decay * (1 / 10) + maintenance) 0) 1 }

/-- The per-unit rent-management step of `Landlord::step` (agent.rs lines
187-207).  A vacant unit bumps its vacant-month counter and loses 2% rent
(floored) on every 2nd consecutive vacant month; an occupied unit whose lease
crossed a 12-month boundary gains 5% rent (ceiled).  The occupied branch
computes `month - unit.lease_month` with unguarded `usize` subtraction, so it
panics (`none`) when `lease_month > month`. -/
def manageUnit (month : ℕ) (u : Unit) : Option Unit :=
  if u.tenants.card = 0 then
    let u' := { u with monthsVacant := u.monthsVacant + 1 }
    if u'.monthsVacant % 2 = 0 then
      some { u' with rent := Int.toNat ⌊(u'.rent : ℚ) * (49 / 50)⌋ }
    else some u'
  else
    (checkedSub month u.leaseMonth).bind (fun elapsed =>
      if elapsed > 0 ∧ elapsed % 12 = 0 then
        some { u with rent := Int.toNat ⌈(u.rent : ℚ) * RENT_INCREASE_RATE⌉ }
      else some u)

/-- The maintenance loop of `Landlord::step` (agent.rs lines 177-184): apply
one condition update (with a fresh decay draw) to each owned unit. -/
def maintFold (maintenance : ℚ) (unitDraws : List (ℕ × ℚ)) (city : City) :
    Option City :=
  unitDraws.foldlM
    (fun (c : City) (p : ℕ × ℚ) =>
      (c.units[p.1]?).bind (fun u =>
        some { c with units := c.units.set p.1 (maintainUnit maintenance p.2 u) }))
    city

/-- The unit-management loop of `Landlord::step` (agent.rs lines 187-207):
apply `manageUnit` to each owned unit. -/
def manageFold (month : ℕ) (unitDraws : List (ℕ × ℚ)) (city : City) :
    Option City :=
  unitDraws.foldlM
    (fun (c : City) (p : ℕ × ℚ) =>
      (c.units[p.1]?).bind (fun u =>
        (manageUnit month u).bind (fun u' =>
          some { c with units := c.units.set p.1 u' })))
    city

/-- The city-mutating part of `Landlord::step` (agent.rs lines 176-207): the
maintenance loop over the owned units (with one fresh decay draw per unit)
followed by the rent-management loop over the same units.  `unitDraws` pairs
each owned unit id with its decay draw; the second loop visits the same ids.
The market-estimation calls on lines 173-174 read the city but do not write
it; they are modelled separately (`Landlord.estimate_trends`). -/
def landlordCityStep (maintenance : ℚ) (month : ℕ)
    (unitDraws : List (ℕ × ℚ)) (city : City) : Option City :=
  (maintFold maintenance unitDraws city).bind (manageFold month unitDraws)

/-- `Landlord` (agent.rs lines 140-148).  The three `HashMap<usize, _>` fields
are modelled as association lists keyed by neighborhood id. -/
structure Landlord where
  id : ℕ
  units : List ℕ
  maintenance : ℚ
  rentObvs : List (ℕ × List ℚ)
  trendEsts : List (ℕ × ℚ)
  investEsts : List (ℕ × ℚ)
deriving DecidableEq

/-- `Landlord::new` (agent.rs lines 151-169): pre-populate every tracked
neighborhood with an empty observation history and zero estimates. -/
def Landlord.new (id : ℕ) (neighborhoodIds : List ℕ) : Landlord :=
  { id := id
    units := []
    maintenance := 1 / 10
    rentObvs := neighborhoodIds.map (fun n => (n, []))
    trendEsts := neighborhoodIds.map (fun n => (n, 0))
    investEsts := neighborhoodIds.map (fun n => (n, 0)) }

/-- HashMap lookup on the association-list model. -/
def lookupQ (m : List (ℕ × ℚ)) (k : ℕ) : Option ℚ :=
  (m.find? (fun p => p.1 == k)).map (fun p => p.2)

/-- HashMap insert on the association-list model: overwrite the existing entry
or append a new one. -/
def updateAssoc (m : List (ℕ × ℚ)) (k : ℕ) (v : ℚ) : List (ℕ × ℚ) :=
  if m.any (fun p => p.1 == k) then
    m.map (fun p => if p.1 == k then (k, v) else p)
  else m ++ [(k, v)]

/-- The last `n` entries of a history (the slice
`&rent_history[rent_history.len() - TREND_MONTHS..]`, agent.rs line 244). -/
def lastN (n : ℕ) (l : List ℚ) : List ℚ := l.drop (l.length - n)

/-- The `linreg` crate's `linear_regression`, modelled exactly over `ℚ`:
ordinary least squares `slope = cov(x,y)/var(x)`, `intercept = ȳ - slope·x̄`.
The crate returns `Err` when the input lengths differ, when the input is
empty (the means are undefined), or when the slope comes out NaN — in exact
arithmetic, exactly when the x-variance is zero. -/
def linearRegression (xs ys : List ℚ) : Option (ℚ × ℚ) :=
  if xs.length ≠ ys.length ∨ xs.length = 0 then none
  else
    let mx := xs.sum / xs.length
    let my := ys.sum / ys.length
    let var := (xs.map (fun x => (x - mx) ^ 2)).sum
    if var = 0 then none
    else
      let cov := ((xs.zip ys).map (fun q => (q.1 - mx) * (q.2 - my))).sum
      let slope := cov / var
      some (slope, my - slope * mx)

/-- The body of the `estimate_trends` loop for one tracked neighborhood
(agent.rs lines 242-253): with at least `TREND_MONTHS` observations, regress
the last 12 observations against `xs = 0..11`, store `slope*12 + intercept`
as the trend estimate and its excess over the last observation as the
investment estimate; otherwise `continue`.  The code unwraps the regression
result and `ys.last()`, so a failure of either panics (`none`). -/
def trendBody (acc : Landlord) (entry : ℕ × List ℚ) : Option Landlord :=
  if entry.2.length ≥ TREND_MONTHS then
    (linearRegression
        ((List.range (lastN TREND_MONTHS entry.2).length).map (fun v => (v : ℚ)))
        (lastN TREND_MONTHS entry.2)).bind
      (fun si =>
        ((lastN TREND_MONTHS entry.2).getLast?).bind
          (fun lastY =>
            some { acc with
                    trendEsts := updateAssoc acc.trendEsts entry.1
                      ((TREND_MONTHS : ℚ) * si.1 + si.2),
                    investEsts := updateAssoc acc.investEsts entry.1
                      ((TREND_MONTHS : ℚ) * si.1 + si.2 - lastY) }))
  else some acc

/-- `Landlord::estimate_trends` (agent.rs lines 241-254): the loop over the
tracked neighborhoods' observation histories. -/
def Landlord.estimate_trends (l : Landlord) : Option Landlord :=
  l.rentObvs.foldlM trendBody l

/-- The shared simulation state threaded through the agent steps: the city,
the vacancy pool (`vacant_units : Vec<usize>`) and the tenant agents. -/
structure SimState where
  city : City
  pool : List ℕ
  tenants : List Tenant
deriving DecidableEq

/-- One driver-scheduled agent step, with the agent's thread-RNG draws made
explicit: a tenant step names the tenant (by list index), the month and the
drawn pool sample; a landlord step names the month, the landlord's maintenance
rate and the owned units paired with their decay draws. -/
inductive Cmd where
  | tenant (idx : ℕ) (month : ℕ) (sample : List ℕ)
  | landlord (month : ℕ) (maintenance : ℚ) (unitDraws : List (ℕ × ℚ))

/-- Apply one agent step to the simulation state (`none` models a panic). -/
def stepCmd (s : SimState) : Cmd → Option SimState
  | .tenant idx month sample =>
    (s.tenants[idx]?).bind (fun t =>
      (t.step s.city month s.pool sample).bind (fun r =>
        some ⟨r.2.1, r.2.2, s.tenants.set idx r.1⟩))
  | .landlord month maintenance unitDraws =>
    (landlordCityStep maintenance month unitDraws s.city).bind (fun city' =>
      some ⟨city', s.pool, s.tenants⟩)

/-- Run a sequence of agent steps. -/
def run (s : SimState) : List Cmd → Option SimState
  | [] => some s
  | c :: cs => (stepCmd s c).bind (fun s' => run s' cs)

/-- The claimed vacancy-pool invariant: a unit id is a member of the pool iff
the unit has at least one free occupant slot. -/
def poolConsistent (s : SimState) : Prop :=
  ∀ i u, s.city.units[i]? = some u →
    (i ∈ s.pool ↔ u.tenants.card < u.occupancy)

/-- Consistency of a simulation state, as the spec's mutation discipline
maintains it: the pool invariant, occupancy never above capacity, pool ids in
range, every housed tenant a member of its unit's occupant set, and pairwise
distinct tenant ids. -/
structure Consistent (s : SimState) : Prop where
  pool_iff : poolConsistent s
  occ_le : ∀ u ∈ s.city.units, u.tenants.card ≤ u.occupancy
  pool_lt : ∀ i ∈ s.pool, i < s.city.units.length
  housed : ∀ t ∈ s.tenants, ∀ i, t.unit = some i →
    ∃ u, s.city.units[i]? = some u ∧ t.id ∈ u.tenants
  ids_nodup : (s.tenants.map Tenant.id).Nodup

/-- The city/pool part of `Consistent`, threaded through the phases of a
tenant step. -/
def CPInv (c : City) (pool : List ℕ) : Prop :=
  (∀ i u, c.units[i]? = some u → (i ∈ pool ↔ u.tenants.card < u.occupancy)) ∧
  (∀ u ∈ c.units, u.tenants.card ≤ u.occupancy) ∧
  (∀ i ∈ pool, i < c.units.length)

/-- A tenant step touches only the stepping tenant's own id in the occupant
sets: unit count and all other memberships are preserved. -/
def OnlyTouches (c c' : City) (tid : ℕ) : Prop :=
  c'.units.length = c.units.length ∧
  ∀ (j : ℕ) (u u' : Unit), c.units[j]? = some u → c'.units[j]? = some u' →
    ∀ x, x ≠ tid → (x ∈ u'.tenants ↔ x ∈ u.tenants)

/-- A housed tenant is a member of its unit's occupant set. -/
def Resides (t : Tenant) (c : City) : Prop :=
  ∀ uId, t.unit = some uId → ∃ u, c.units[uId]? = some u ∧ t.id ∈ u.tenants

/-- A landlord step changes neither the occupant sets nor the capacities. -/
def SameOcc (c c' : City) : Prop :=
  c'.units.length = c.units.length ∧
  ∀ (j : ℕ) (u u' : Unit), c.units[j]? = some u → c'.units[j]? = some u' →
    u'.tenants = u.tenants ∧ u'.occupancy = u.occupancy

/-! Concrete inputs used by the witnesses and counterexamples. -/

/-- The origin position. -/
def pos00 : Position := ⟨0, 0⟩

/-- A position at Euclidean distance 1 from the origin. -/
def pos01 : Position := ⟨0, 1⟩

/-- A position at Euclidean distance 2 from the origin. -/
def pos02 : Position := ⟨0, 2⟩

/-- A parcel contributing no desirability of its own. -/
def pPlain : Parcel := ⟨0, none⟩

/-- A parcel with location desirability 2. -/
def pNice : Parcel := ⟨2, none⟩

/-- An empty affordable unit at the origin: rent 1, one slot, area exactly
`MIN_AREA`, condition 0. -/
def uBase : Unit :=
  { pos := pos00, rent := 1, area := 50, condition := 0, leaseMonth := 0,
    monthsVacant := 0, tenants := ∅, occupancy := 1 }

/-- A tenant with income 0 (for the affordability gate). -/
def tPoor : Tenant := ⟨1, 0, none, pos00, []⟩

/-- A rent-5 unit the income-0 tenant cannot afford. -/
def uFive : Unit := { uBase with rent := 5 }

/-- A tenant with income 1, exactly the per-tenant rent of `uBase`. -/
def tOne : Tenant := ⟨2, 1, none, pos00, []⟩

/-- `uBase` displaced to distance 1 from the origin. -/
def uDist1 : Unit := { uBase with pos := pos01 }

/-- An unhoused tenant used for the thread-RNG divergence example. -/
def tFree : Tenant := ⟨0, 1, none, pos00, []⟩

/-- The two-identical-unit city for the thread-RNG divergence example: both
units affordable with score 1 for `tFree`. -/
def cityTwin : City := ⟨[uBase, uBase], [(pos00, pPlain)]⟩

/-- The stepped tenant of the forced-eviction example: income 50, housed in
unit 0. -/
def tEvict : Tenant := ⟨7, 50, some 0, pos00, []⟩

/-- The current unit of the forced-eviction example: rent 200 shared by the
single occupant (per-tenant rent 100 > income 50, so the score is 0). -/
def uExpensive : Unit :=
  { uBase with rent := 200, condition := 1, tenants := {7} }

/-- `uExpensive` after its sole occupant has been evicted. -/
def uEmptied : Unit := { uExpensive with tenants := ∅ }

/-- The alternative unit of the forced-eviction example: per-tenant rent 50 =
income, score 4 (0 spaciousness + 2 parcel + 1 condition + 1 commute). -/
def uOffer : Unit := { uBase with rent := 50, condition := 1 }

/-- `uOffer` occupied by the evicted tenant (the outcome the spec's words
prescribe). -/
def uOfferTaken : Unit := { uOffer with tenants := {7} }

/-- `uBase` occupied by tenant 0. -/
def uTaken : Unit := { uBase with tenants := {0} }

/-- The city of the forced-eviction example. -/
def cityEvict : City := ⟨[uExpensive, uOffer], [(pos00, pNice)]⟩

/-- `cityEvict` after the eviction phase: the tenant is removed from unit 0's
occupant set. -/
def cityEvictAfter : City := ⟨[uEmptied, uOffer], [(pos00, pNice)]⟩

/-- `cityEvict` after the step that the SPEC's words prescribe: evicted from
unit 0, then moved into unit 1 (penalty 0 lets the score-4 offer win). -/
def cityEvictSpecAfter : City := ⟨[uEmptied, uOfferTaken], [(pos00, pNice)]⟩

/-- `cityTwin` after `tFree` moves into unit 0 (sample order `[0, 1]`). -/
def cityTwinL : City := ⟨[uTaken, uBase], [(pos00, pPlain)]⟩

/-- `cityTwin` after `tFree` moves into unit 1 (sample order `[1, 0]`). -/
def cityTwinR : City := ⟨[uBase, uTaken], [(pos00, pPlain)]⟩

/-- The stepped tenant of the lease-boundary example: income 50, housed in
unit 0. -/
def tLease : Tenant := ⟨3, 50, some 0, pos00, []⟩

/-- The current unit of the lease-boundary example: lease month 0, so month 12
is a boundary. -/
def uLeased : Unit := { uBase with rent := 60, condition := 1, tenants := {3} }

/-- The city of the lease-boundary example. -/
def cityLease : City := ⟨[uLeased, uOffer], [(pos00, pNice)]⟩

/-- An occupied unit whose lease starts at month 5: stepping a landlord at any
earlier month underflows the `month - lease_month` subtraction. -/
def uLate : Unit := { uBase with leaseMonth := 5, tenants := {9}, occupancy := 2 }

/-- An occupied unit with rent 100 at a lease boundary (12 months elapsed). -/
def uHundredOcc : Unit :=
  { uBase with rent := 100, tenants := {4}, occupancy := 2 }

/-- A vacant unit with rent 100 on its 1st consecutive vacant month, about to
count its 2nd. -/
def uHundredVac : Unit := { uBase with rent := 100, monthsVacant := 1 }

/-- The last-12 observation window `10, 11, ..., 21` of the trend-estimator
example. -/
def tenTo21 : List ℚ := [10, 11, 12, 13, 14, 15, 16, 17, 18, 19, 20, 21]

/-- A landlord tracking neighborhood 1 (3 observations, too few) and
neighborhood 2 (exactly the 12-point linear window). -/
def lTrend : Landlord :=
  { id := 9, units := [], maintenance := 1 / 10,
    rentObvs := [(1, [3, 4, 5]), (2, tenTo21)],
    trendEsts := [(1, 0), (2, 0)],
    investEsts := [(1, 0), (2, 0)] }

/-- The trend-estimator example's output landlord. -/
def lTrendAfter : Landlord :=
  { lTrend with trendEsts := [(1, 0), (2, 22)], investEsts := [(1, 0), (2, 1)] }

/-- The single vacant unit of the vacancy-pool witness state. -/
def demoUnit : Unit := { uBase with rent := 100, condition := 1 }

/-- A one-unit consistent state for the vacancy-pool witness. -/
def demoState : SimState := ⟨⟨[demoUnit], [(pos00, pPlain)]⟩, [0], []⟩

/-- `demoState` after one landlord step (decay draw 0, maintenance 0, month
1): the vacant unit counts one vacant month, everything else unchanged. -/
def demoState1 : SimState :=
  ⟨⟨[{ demoUnit with monthsVacant := 1 }], [(pos00, pPlain)]⟩, [0], []⟩

/-- The landlord command applied to `demoState` in the vacancy-pool witness. -/
def demoCmds : List Cmd := [Cmd.landlord 1 0 [(0, 0)]]

/-! Helper lemmas shared by the claim theorems. -/

theorem list_set_self {α : Type} (l : List α) (n : ℕ) (a : α)
    (h : l[n]? = some a) : l.set n a = l := by
  obtain ⟨hn, hv⟩ := List.getElem?_eq_some.mp h
  apply List.ext_getElem?
  intro j
  rw [List.getElem?_set]
  by_cases hj : n = j
  · subst hj
    simp [hn, ← hv, List.getElem?_eq_getElem hn]
  · simp [hj]

theorem desirability_eq_zero (t : Tenant) (u : Unit) (p : Parcel)
    (h : t.income < max 1 (u.rent / (u.tenants.card + 1))) :
    t.desirability u p = 0 := by
  simp only [Tenant.desirability]
  rw [if_pos h]

theorem desirability_of_ge (t : Tenant) (u : Unit) (p : Parcel)
    (h : max 1 (u.rent / (u.tenants.card + 1)) ≤ t.income) :
    t.desirability u p =
      Real.sqrt ((t.income : ℝ) / ((max 1 (u.rent / (u.tenants.card + 1)) : ℕ) : ℝ)) *
        ((max ((u.area : ℝ) / (((u.tenants.card + 1 : ℕ) : ℝ)) - (MIN_AREA : ℝ)) 0) ^
            ((1 : ℝ) / 32) +
          (p.desirability : ℝ) + (u.condition : ℝ) + commuteTerm t.work u.pos) := by
  simp only [Tenant.desirability]
  rw [if_neg (not_lt.mpr h)]

theorem floor_discount_le (r : ℕ) : Int.toNat ⌊(r : ℚ) * (49 / 50)⌋ ≤ r := by
  rw [Int.toNat_le]
  calc ⌊(r : ℚ) * (49 / 50)⌋ ≤ ⌊(r : ℚ)⌋ := by
        apply Int.floor_le_floor
        nlinarith [Nat.cast_nonneg (α := ℚ) r]
    _ = (r : ℤ) := Int.floor_natCast r

/-- C6: for every tenant/unit pair, if the income is strictly below
`max(1, rent/(occupants+1))` — integer rent, truncating division — the
desirability score is exactly 0 (agent.rs lines 116-137). -/
theorem affordability_gate (t : Tenant) (u : Unit) (p : Parcel)
    (h : t.income < max 1 (u.rent / (u.tenants.card + 1))) :
    t.desirability u p = 0 :=
  desirability_eq_zero t u p h

/-- Witness for C6: the income-0 tenant cannot afford the rent-5 unit and
scores it 0. -/
theorem affordability_gate_witness :
    tPoor.income < max 1 (uFive.rent / (uFive.tenants.card + 1)) ∧
      tPoor.desirability uFive pPlain = 0 :=
  ⟨by decide, affordability_gate tPoor uFive pPlain (by decide)⟩

/-- C8: each owned unit receives exactly one rent adjustment per landlord
step (agent.rs lines 187-207): an occupied unit whose lease crossed a
12-month boundary gets `rent = ceil(rent*1.05)`; a vacant unit counts one
more vacant month and on every 2nd consecutive vacant month gets
`rent = floor(rent*0.98)`, which never increases it; rent stays a natural
number by type. -/
theorem rent_adjustment (u : Unit) (month : ℕ)
    (h : u.tenants.card ≠ 0 → u.leaseMonth ≤ month) :
    ∃ u', manageUnit month u = some u' ∧
      u'.tenants = u.tenants ∧
      (u.tenants.card ≠ 0 →
        u'.monthsVacant = u.monthsVacant ∧
        ((month - u.leaseMonth > 0 ∧ (month - u.leaseMonth) % 12 = 0 →
            u'.rent = Int.toNat ⌈(u.rent : ℚ) * RENT_INCREASE_RATE⌉) ∧
          (¬(month - u.leaseMonth > 0 ∧ (month - u.leaseMonth) % 12 = 0) →
            u'.rent = u.rent))) ∧
      (u.tenants.card = 0 →
        u'.monthsVacant = u.monthsVacant + 1 ∧
        (((u.monthsVacant + 1) % 2 = 0 →
            u'.rent = Int.toNat ⌊(u.rent : ℚ) * (49 / 50)⌋ ∧ u'.rent ≤ u.rent) ∧
          ((u.monthsVacant + 1) % 2 ≠ 0 → u'.rent = u.rent))) := by
  by_cases hv : u.tenants.card = 0
  · by_cases h2 : (u.monthsVacant + 1) % 2 = 0
    · have hm : manageUnit month u =
          some { u with monthsVacant := u.monthsVacant + 1,
                        rent := Int.toNat ⌊(u.rent : ℚ) * (49 / 50)⌋ } := by
        simp [manageUnit, hv, h2]
      exact ⟨_, hm, rfl, fun hc => absurd hv hc,
        fun _ => ⟨rfl, fun _ => ⟨rfl, floor_discount_le u.rent⟩, fun hc => absurd h2 hc⟩⟩
    · have hm : manageUnit month u =
          some { u with monthsVacant := u.monthsVacant + 1 } := by
        simp [manageUnit, hv, h2]
      exact ⟨_, hm, rfl, fun hc => absurd hv hc,
        fun _ => ⟨rfl, fun hc => absurd hc h2, fun _ => rfl⟩⟩
  · have hsub : checkedSub month u.leaseMonth = some (month - u.leaseMonth) := by
      unfold checkedSub
      rw [if_pos (h hv)]
    by_cases hb : month - u.leaseMonth > 0 ∧ (month - u.leaseMonth) % 12 = 0
    · have hm : manageUnit month u =
          some { u with rent := Int.toNat ⌈(u.rent : ℚ) * RENT_INCREASE_RATE⌉ } := by
        unfold manageUnit
        rw [if_neg hv, hsub]
        simp only [Option.bind_eq_bind, Option.some_bind]
        rw [if_pos hb]
      exact ⟨_, hm, rfl,
        fun _ => ⟨rfl, fun _ => rfl, fun hc => absurd hb hc⟩, fun hc => absurd hc hv⟩
    · have hm : manageUnit month u = some u := by
        unfold manageUnit
        rw [if_neg hv, hsub]
        simp only [Option.bind_eq_bind, Option.some_bind]
        rw [if_neg hb]
      exact ⟨u, hm, rfl,
        fun _ => ⟨rfl, fun hc => absurd hc hb, fun _ => rfl⟩, fun hc => absurd hc hv⟩

/-- Witness for C8: rent 100 occupied at a lease boundary becomes 105; rent
100 vacant on its 2nd consecutive vacant month becomes 98. -/
theorem rent_adjustment_witness :
    (∃ u', manageUnit 12 uHundredOcc = some u' ∧ u'.rent = 105) ∧
      (∃ u', manageUnit 1 uHundredVac = some u' ∧ u'.rent = 98 ∧ u'.monthsVacant = 2) := by
  constructor
  · obtain ⟨u', hm, -, hocc, -⟩ := rent_adjustment uHundredOcc 12 (by decide)
    refine ⟨u', hm, ?_⟩
    rw [(hocc (by decide)).2.1 (by decide)]
    norm_num [uHundredOcc, uBase, RENT_INCREASE_RATE]
    decide
  · obtain ⟨u', hm, -, -, hvac⟩ := rent_adjustment uHundredVac 1 (by decide)
    refine ⟨u', hm, ?_, (hvac (by decide)).1⟩
    rw [((hvac (by decide)).2.1 (by decide)).1]
    norm_num [uHundredVac, uBase]
    decide

/-- C9: the occupied-unit rent branch of `Landlord::step` computes
`month - unit.lease_month` with unguarded `usize` subtraction, so for an
occupied unit the step succeeds exactly when `lease_month <= month` and
panics on a concrete input with `lease_month > month` — unlike
`Tenant::step`, whose guarded computation returns 0 in that case. -/
theorem lease_month_underflow :
    (∀ (u : Unit) (month : ℕ), u.tenants.card ≠ 0 →
        ((manageUnit month u).isSome ↔ u.leaseMonth ≤ month)) ∧
      manageUnit 3 uLate = none ∧
      (∀ month lm : ℕ, month ≤ lm → tenantElapsed month lm = 0) ∧
      tenantElapsed 3 5 = 0 := by
  refine ⟨?_, by decide, ?_, by decide⟩
  · intro u month hocc
    by_cases hle : u.leaseMonth ≤ month
    · refine iff_of_true ?_ hle
      simp only [manageUnit, checkedSub, if_neg hocc, if_pos hle,
        Option.bind_eq_bind, Option.some_bind]
      split <;> simp
    · refine iff_of_false ?_ hle
      simp [manageUnit, checkedSub, hocc, hle]
  · intro month lm hle
    unfold tenantElapsed
    rw [if_neg (by omega)]

/-- Witness for C9: an occupied unit with lease month 0 succeeds at month
14. -/
theorem lease_month_underflow_witness : (manageUnit 14 uHundredOcc).isSome :=
  (lease_month_underflow.1 uHundredOcc 14 (by decide)).mpr (by decide)

theorem distance_zero_or_one_le (p q : Position) :
    distance p q = 0 ∨ 1 ≤ distance p q := by
  unfold distance
  rcases eq_or_lt_of_le (show (0 : ℤ) ≤ (p.a - q.a) ^ 2 + (p.b - q.b) ^ 2 by positivity)
    with h | h
  · left
    rw [← h]
    simp
  · right
    have h1 : (1 : ℝ) ≤ (((p.a - q.a) ^ 2 + (p.b - q.b) ^ 2 : ℤ) : ℝ) := by
      exact_mod_cast h
    calc (1 : ℝ) = Real.sqrt 1 := Real.sqrt_one.symm
      _ ≤ _ := Real.sqrt_le_sqrt h1

theorem distance_00_01 : distance pos00 pos01 = 1 := by
  have h : (((pos00.a - pos01.a) ^ 2 + (pos00.b - pos01.b) ^ 2 : ℤ) : ℝ) = 1 := by
    norm_num [pos00, pos01]
  unfold distance
  rw [h, Real.sqrt_one]

theorem distance_00_02 : distance pos00 pos02 = 2 := by
  have h : (((pos00.a - pos02.a) ^ 2 + (pos00.b - pos02.b) ^ 2 : ℤ) : ℝ) = 2 ^ 2 := by
    norm_num [pos00, pos02]
  unfold distance
  rw [h, Real.sqrt_sq (by norm_num : (0 : ℝ) ≤ 2)]

/-- Counterexample for C5: a unit at Euclidean distance 1 (integer
coordinates) has a positive commute distance yet a commute term of exactly 1,
equal to the distance-0 value — the commute term is not strictly below 1 at
every positive distance. -/
theorem commute_unit_distance_cex :
    0 < distance pos00 pos01 ∧ commuteTerm pos00 pos01 = 1 := by
  constructor
  · rw [distance_00_01]
    norm_num
  · simp only [commuteTerm]
    rw [distance_00_01]
    norm_num

/-- C5 (amended): with integer coordinates every distance is 0 or at least 1;
the commute term equals 1 exactly when the distance is at most 1 (i.e. 0 or
1) and is strictly below 1 exactly when the distance exceeds 1; holding
everything else fixed with the affordability gate passed, the score strictly
decreases as the distance increases in the range `>= 1`. -/
theorem commute_monotonicity (t : Tenant) (u : Unit) (p : Parcel) (q : Position)
    (hafford : max 1 (u.rent / (u.tenants.card + 1)) ≤ t.income)
    (h1 : 1 ≤ distance t.work u.pos)
    (h2 : distance t.work u.pos < distance t.work q) :
    t.desirability { u with pos := q } p < t.desirability u p ∧
      ∀ w r : Position,
        (commuteTerm w r = 1 ↔ distance w r ≤ 1) ∧
        (commuteTerm w r < 1 ↔ 1 < distance w r) := by
  constructor
  · have hd1pos : 0 < distance t.work u.pos := lt_of_lt_of_le zero_lt_one h1
    have hd2pos : 0 < distance t.work q := lt_trans hd1pos h2
    have hc : commuteTerm t.work q < commuteTerm t.work u.pos := by
      unfold commuteTerm
      rw [if_neg (ne_of_gt hd2pos), if_neg (ne_of_gt hd1pos)]
      exact one_div_lt_one_div_of_lt hd1pos h2
    have hs : 0 < Real.sqrt ((t.income : ℝ) /
        ((max 1 (u.rent / (u.tenants.card + 1)) : ℕ) : ℝ)) := by
      apply Real.sqrt_pos.mpr
      apply div_pos
      · have : 1 ≤ t.income := le_trans (le_max_left _ _) hafford
        exact_mod_cast Nat.lt_of_lt_of_le Nat.zero_lt_one this
      · exact_mod_cast Nat.lt_of_lt_of_le Nat.zero_lt_one (le_max_left _ _)
    rw [desirability_of_ge t u p hafford, desirability_of_ge t { u with pos := q } p hafford]
    dsimp only
    exact mul_lt_mul_of_pos_left (add_lt_add_left hc _) hs
  · intro w r
    rcases distance_zero_or_one_le w r with hz | ho
    · constructor
      · exact iff_of_true (by simp [commuteTerm, hz]) (by rw [hz]; norm_num)
      · exact iff_of_false (by simp [commuteTerm, hz]) (by rw [hz]; norm_num)
    · have hpos : 0 < distance w r := lt_of_lt_of_le zero_lt_one ho
      have hct : commuteTerm w r = 1 / distance w r := by
        simp only [commuteTerm]
        rw [if_neg (ne_of_gt hpos)]
      constructor
      · rw [hct, div_eq_one_iff_eq (ne_of_gt hpos)]
        constructor
        · intro h; rw [← h]
        · intro h; exact le_antisymm ho h
      · rw [hct, div_lt_one hpos]

/-- Witness for C5 (amended): moving the affordable base unit from distance 1
to distance 2 strictly lowers its score for the income-1 tenant. -/
theorem commute_monotonicity_witness :
    tOne.desirability { uDist1 with pos := pos02 } pPlain <
      tOne.desirability uDist1 pPlain :=
  (commute_monotonicity tOne uDist1 pPlain pos02 (by decide)
    (by show (1 : ℝ) ≤ distance pos00 pos01
        rw [distance_00_01])
    (by show distance pos00 pos01 < distance pos00 pos02
        rw [distance_00_01, distance_00_02]
        norm_num)).1

theorem find_map_overwrite (m : List (ℕ × ℚ)) (k j : ℕ) (v : ℚ) (h : j ≠ k) :
    List.find? (fun p => p.1 == j) (m.map (fun p => if p.1 == k then (k, v) else p)) =
      List.find? (fun p => p.1 == j) m := by
  induction m with
  | nil => rfl
  | cons a as ih =>
    rw [List.map_cons]
    by_cases hak : a.1 = k
    · rw [if_pos (by simp [hak])]
      rw [List.find?_cons_of_neg _ (by simp only [beq_iff_eq]; exact Ne.symm h),
        List.find?_cons_of_neg _ (by simp only [beq_iff_eq, hak]; exact Ne.symm h), ih]
    · rw [if_neg (by simp [hak])]
      by_cases haj : a.1 = j
      · rw [List.find?_cons_of_pos _ (by simp [haj]),
          List.find?_cons_of_pos _ (by simp [haj])]
      · rw [List.find?_cons_of_neg _ (by simp [haj]),
          List.find?_cons_of_neg _ (by simp [haj]), ih]

theorem lookupQ_updateAssoc_ne (m : List (ℕ × ℚ)) (k : ℕ) (v : ℚ) (j : ℕ)
    (h : j ≠ k) : lookupQ (updateAssoc m k v) j = lookupQ m j := by
  unfold updateAssoc lookupQ
  by_cases hany : m.any (fun p => p.1 == k)
  · rw [if_pos hany, find_map_overwrite m k j v h]
  · rw [if_neg hany, List.find?_append,
      show List.find? (fun p => p.1 == j) [(k, v)] = none from
        List.find?_cons_of_neg _ (by simp only [beq_iff_eq]; exact Ne.symm h),
      Option.or_none]

theorem find_map_overwrite_self (m : List (ℕ × ℚ)) (k : ℕ) (v : ℚ)
    (hany : m.any (fun p => p.1 == k) = true) :
    List.find? (fun p => p.1 == k) (m.map (fun p => if p.1 == k then (k, v) else p)) =
      some (k, v) := by
  induction m with
  | nil => simp at hany
  | cons a as ih =>
    rw [List.map_cons]
    by_cases hak : a.1 = k
    · rw [if_pos (by simp [hak])]
      exact List.find?_cons_of_pos _ (by simp)
    · rw [if_neg (by simp [hak]), List.find?_cons_of_neg _ (by simp [hak])]
      apply ih
      rw [List.any_cons] at hany
      simpa [hak] using hany

theorem lookupQ_updateAssoc_self (m : List (ℕ × ℚ)) (k : ℕ) (v : ℚ) :
    lookupQ (updateAssoc m k v) k = some v := by
  unfold updateAssoc lookupQ
  by_cases hany : m.any (fun p => p.1 == k)
  · rw [if_pos hany, find_map_overwrite_self m k v hany]
    rfl
  · rw [if_neg hany, List.find?_append,
      show List.find? (fun p => p.1 == k) m = none from
        List.find?_eq_none.mpr (by
          intro x hx hpx
          exact hany (List.any_eq_true.mpr ⟨x, hx, hpx⟩)),
      List.find?_cons_of_pos _ (by simp)]
    rfl

theorem assoc_key_unique {β : Type} (m : List (ℕ × β))
    (hnd : (m.map Prod.fst).Nodup) (k : ℕ) (v w : β)
    (hv : (k, v) ∈ m) (hw : (k, w) ∈ m) : v = w := by
  obtain ⟨i, hi⟩ := List.mem_iff_getElem?.mp hv
  obtain ⟨j, hj⟩ := List.mem_iff_getElem?.mp hw
  have hilt : i < m.length := (List.getElem?_eq_some.mp hi).1
  have hmi : (m.map Prod.fst)[i]? = some k := by
    rw [List.getElem?_map, hi]
    rfl
  have hmj : (m.map Prod.fst)[j]? = some k := by
    rw [List.getElem?_map, hj]
    rfl
  have hij : i = j :=
    List.getElem?_inj (by simpa using hilt) hnd (hmi.trans hmj.symm)
  subst hij
  have hvw := hi.symm.trans hj
  injection Option.some.inj hvw with h1 h2

theorem trendBody_skip (acc : Landlord) (entry : ℕ × List ℚ)
    (h : entry.2.length < TREND_MONTHS) : trendBody acc entry = some acc := by
  unfold trendBody
  rw [if_neg (by omega)]

theorem trendBody_other (acc res : Landlord) (entry : ℕ × List ℚ)
    (h : trendBody acc entry = some res) :
    ∀ j, j ≠ entry.1 →
      lookupQ res.trendEsts j = lookupQ acc.trendEsts j ∧
      lookupQ res.investEsts j = lookupQ acc.investEsts j := by
  intro j hj
  unfold trendBody at h
  by_cases hl : entry.2.length ≥ TREND_MONTHS
  · rw [if_pos hl] at h
    simp only [Option.bind_eq_some] at h
    obtain ⟨si, hreg, h⟩ := h
    obtain ⟨ly, hly, h⟩ := h
    obtain rfl := Option.some.inj h
    exact ⟨lookupQ_updateAssoc_ne _ _ _ j hj, lookupQ_updateAssoc_ne _ _ _ j hj⟩
  · rw [if_neg hl] at h
    obtain rfl := Option.some.inj h
    exact ⟨rfl, rfl⟩

theorem trendFold_preserve (id : ℕ) (entries : List (ℕ × List ℚ)) :
    ∀ (acc res : Landlord),
      List.foldlM trendBody acc entries = some res →
      (∀ e ∈ entries, e.1 = id → e.2.length < TREND_MONTHS) →
      lookupQ res.trendEsts id = lookupQ acc.trendEsts id ∧
        lookupQ res.investEsts id = lookupQ acc.investEsts id := by
  induction entries with
  | nil =>
    intro acc res hf _
    obtain rfl := Option.some.inj hf
    exact ⟨rfl, rfl⟩
  | cons e es ih =>
    intro acc res hf hshort
    rw [List.foldlM_cons] at hf
    simp only [Option.bind_eq_bind, Option.bind_eq_some] at hf
    obtain ⟨acc₁, hb, hrest⟩ := hf
    by_cases hkey : e.1 = id
    · have hlen := hshort e (List.mem_cons_self e es) hkey
      rw [trendBody_skip acc e hlen] at hb
      obtain rfl := Option.some.inj hb
      exact ih _ res hrest (fun e' he' => hshort e' (List.mem_cons_of_mem e he'))
    · have hstep := trendBody_other acc acc₁ e hb id (fun hc => hkey hc.symm)
      have htail := ih acc₁ res hrest (fun e' he' => hshort e' (List.mem_cons_of_mem e he'))
      exact ⟨htail.1.trans hstep.1, htail.2.trans hstep.2⟩

theorem trendFold_compute (id : ℕ) (hist : List ℚ) (sl ic ly : ℚ)
    (entries : List (ℕ × List ℚ)) :
    ∀ (acc res : Landlord),
      List.foldlM trendBody acc entries = some res →
      (id, hist) ∈ entries →
      (entries.map Prod.fst).Nodup →
      hist.length ≥ TREND_MONTHS →
      linearRegression
          ((List.range (lastN TREND_MONTHS hist).length).map (fun v => (v : ℚ)))
          (lastN TREND_MONTHS hist) = some (sl, ic) →
      (lastN TREND_MONTHS hist).getLast? = some ly →
      lookupQ res.trendEsts id = some ((TREND_MONTHS : ℚ) * sl + ic) ∧
        lookupQ res.investEsts id =
          some ((TREND_MONTHS : ℚ) * sl + ic - ly) := by
  induction entries with
  | nil =>
    intro acc res _ hmem
    exact absurd hmem (List.not_mem_nil _)
  | cons e es ih =>
    intro acc res hf hmem hnd hlen hreg hly
    have hnd' : (e.1 :: es.map Prod.fst).Nodup := by simpa using hnd
    rw [List.foldlM_cons] at hf
    simp only [Option.bind_eq_bind, Option.bind_eq_some] at hf
    obtain ⟨acc₁, hb, hrest⟩ := hf
    rcases List.mem_cons.mp hmem with he | hes
    · have hacc₁ : acc₁ =
          { acc with
              trendEsts := updateAssoc acc.trendEsts id
                ((TREND_MONTHS : ℚ) * sl + ic),
              investEsts := updateAssoc acc.investEsts id
                ((TREND_MONTHS : ℚ) * sl + ic - ly) } := by
        rw [← he] at hb
        unfold trendBody at hb
        rw [if_pos hlen] at hb
        dsimp only at hb
        simp only [Option.bind_eq_some] at hb
        obtain ⟨si, hreg', hb⟩ := hb
        obtain ⟨ly', hly', hb⟩ := hb
        obtain rfl : (sl, ic) = si := Option.some.inj (hreg.symm.trans hreg')
        have hlyeq : ly = ly' := Option.some.inj (hly.symm.trans hly')
        subst hlyeq
        exact (Option.some.inj hb).symm
      subst hacc₁
      have hkeys : ∀ e' ∈ es, e'.1 = id → e'.2.length < TREND_MONTHS := by
        intro e' he' hk
        exfalso
        have hid : id ∈ es.map Prod.fst := hk ▸ List.mem_map_of_mem Prod.fst he'
        have he1 : e.1 = id := by rw [← he]
        exact (List.nodup_cons.mp hnd').1 (he1 ▸ hid)
      have hp := trendFold_preserve id es _ res hrest hkeys
      refine ⟨hp.1.trans ?_, hp.2.trans ?_⟩
      · exact lookupQ_updateAssoc_self _ _ _
      · exact lookupQ_updateAssoc_self _ _ _
    · exact ih acc₁ res hrest hes (List.nodup_cons.mp hnd').2 hlen hreg hly

theorem trendBody_compute (acc : Landlord) (entry : ℕ × List ℚ) (sl ic ly : ℚ)
    (hl : entry.2.length ≥ TREND_MONTHS)
    (hreg : linearRegression
        ((List.range (lastN TREND_MONTHS entry.2).length).map (fun v => (v : ℚ)))
        (lastN TREND_MONTHS entry.2) = some (sl, ic))
    (hly : (lastN TREND_MONTHS entry.2).getLast? = some ly) :
    trendBody acc entry =
      some { acc with
              trendEsts := updateAssoc acc.trendEsts entry.1
                ((TREND_MONTHS : ℚ) * sl + ic),
              investEsts := updateAssoc acc.investEsts entry.1
                ((TREND_MONTHS : ℚ) * sl + ic - ly) } := by
  unfold trendBody
  rw [if_pos hl, hreg, Option.some_bind, hly, Option.some_bind]

theorem lastN_ten21 : lastN TREND_MONTHS tenTo21 = tenTo21 := by decide

theorem xs12_eval : (List.range tenTo21.length).map (fun v => (v : ℚ)) =
    [0, 1, 2, 3, 4, 5, 6, 7, 8, 9, 10, 11] := by decide

theorem linreg_ten21 :
    linearRegression [0, 1, 2, 3, 4, 5, 6, 7, 8, 9, 10, 11] tenTo21 = some (1, 10) := by
  norm_num [linearRegression, tenTo21]

theorem estimate_trends_lTrend : lTrend.estimate_trends = some lTrendAfter := by
  have h1 : trendBody lTrend (1, [3, 4, 5]) = some lTrend := trendBody_skip _ _ (by decide)
  have h2 := trendBody_compute lTrend (2, tenTo21) 1 10 21 (by decide)
    (by rw [show lastN TREND_MONTHS (2, tenTo21).2 = tenTo21 from lastN_ten21, xs12_eval]
        exact linreg_ten21)
    (by rw [show lastN TREND_MONTHS (2, tenTo21).2 = tenTo21 from lastN_ten21]
        decide)
  show List.foldlM trendBody lTrend lTrend.rentObvs = some lTrendAfter
  rw [show lTrend.rentObvs = [(1, [3, 4, 5]), (2, tenTo21)] from rfl,
    List.foldlM_cons, h1]
  simp only [Option.bind_eq_bind, Option.some_bind]
  rw [List.foldlM_cons, h2]
  simp only [Option.bind_eq_bind, Option.some_bind, List.foldlM_nil]
  norm_num [updateAssoc, lTrend, lTrendAfter, TREND_MONTHS]

/-- C7: for every landlord and tracked neighborhood, a history of fewer than
`TREND_MONTHS` observations leaves both estimates unchanged by one
`estimate_trends` call (so still 0 right after `Landlord::new`), and a last-12
window of exactly `10, 11, ..., 21` yields `trend_estimate = 22` (the exact
next value) and `investment_estimate = 1` (agent.rs lines 241-254). -/
theorem trend_estimator_boundary (l : Landlord) (id : ℕ) (hist : List ℚ)
    (l' : Landlord)
    (hnd : (l.rentObvs.map Prod.fst).Nodup)
    (hmem : (id, hist) ∈ l.rentObvs)
    (hrun : l.estimate_trends = some l') :
    (hist.length < TREND_MONTHS →
      lookupQ l'.trendEsts id = lookupQ l.trendEsts id ∧
        lookupQ l'.investEsts id = lookupQ l.investEsts id) ∧
    (lastN TREND_MONTHS hist = tenTo21 →
      lookupQ l'.trendEsts id = some 22 ∧ lookupQ l'.investEsts id = some 1) := by
  constructor
  · intro hshort
    apply trendFold_preserve id l.rentObvs l l' hrun
    intro e he hk
    have : e.2 = hist := by
      have hmem' : (id, e.2) ∈ l.rentObvs := by
        have : e = (id, e.2) := by
          rw [← hk]
        rw [← this]
        exact he
      exact assoc_key_unique l.rentObvs hnd id e.2 hist hmem' hmem
    rw [this]
    exact hshort
  · intro hwin
    have hlen12 : (lastN TREND_MONTHS hist).length = 12 := by
      rw [hwin]
      rfl
    have hge : hist.length ≥ TREND_MONTHS := by
      unfold lastN at hlen12
      rw [List.length_drop] at hlen12
      unfold TREND_MONTHS
      omega
    have hreg : linearRegression
        ((List.range (lastN TREND_MONTHS hist).length).map (fun v => (v : ℚ)))
        (lastN TREND_MONTHS hist) = some (1, 10) := by
      rw [hwin, xs12_eval]
      exact linreg_ten21
    have hly : (lastN TREND_MONTHS hist).getLast? = some 21 := by
      rw [hwin]
      decide
    have hc := trendFold_compute id hist 1 10 21 l.rentObvs l l' hrun hmem hnd hge hreg hly
    have h22 : (TREND_MONTHS : ℚ) * 1 + 10 = 22 := by
      norm_num [TREND_MONTHS]
    have h1 : (TREND_MONTHS : ℚ) * 1 + 10 - 21 = 1 := by
      norm_num [TREND_MONTHS]
    exact ⟨h22 ▸ hc.1, h1 ▸ hc.2⟩

/-- Witness for C7: the landlord tracking a 3-point history (neighborhood 1)
and the exact `10..21` window (neighborhood 2). -/
theorem trend_estimator_boundary_witness :
    lookupQ lTrendAfter.trendEsts 1 = some 0 ∧
      lookupQ lTrendAfter.trendEsts 2 = some 22 ∧
      lookupQ lTrendAfter.investEsts 2 = some 1 := by
  have hrun : lTrend.estimate_trends = some lTrendAfter := estimate_trends_lTrend
  refine ⟨?_, ?_, ?_⟩
  · exact ((trend_estimator_boundary lTrend 1 [3, 4, 5] lTrendAfter (by decide)
      (by decide) hrun).1 (by decide)).1.trans (by decide)
  · exact ((trend_estimator_boundary lTrend 2 tenTo21 lTrendAfter (by decide)
      (by decide) hrun).2 (by decide)).1
  · exact ((trend_estimator_boundary lTrend 2 tenTo21 lTrendAfter (by decide)
      (by decide) hrun).2 (by decide)).2

theorem distance_self (q : Position) : distance q q = 0 := by
  unfold distance
  simp

theorem desirability_unit_irrel (t : Tenant) (uo : Option ℕ) (u : Unit) (p : Parcel) :
    Tenant.desirability { t with unit := uo } u p = t.desirability u p := rfl

theorem desirability_simple (t : Tenant) (u : Unit) (p : Parcel)
    (h : max 1 (u.rent / (u.tenants.card + 1)) ≤ t.income)
    (hr : (t.income : ℝ) / ((max 1 (u.rent / (u.tenants.card + 1)) : ℕ) : ℝ) = 1)
    (ha : (u.area : ℝ) / (((u.tenants.card + 1 : ℕ)) : ℝ) ≤ (MIN_AREA : ℝ))
    (hd : distance t.work u.pos = 0) :
    t.desirability u p = (p.desirability : ℝ) + (u.condition : ℝ) + 1 := by
  rw [desirability_of_ge t u p h, hr, Real.sqrt_one, one_mul,
    max_eq_right (by linarith :
      (u.area : ℝ) / (((u.tenants.card + 1 : ℕ)) : ℝ) - (MIN_AREA : ℝ) ≤ 0),
    Real.zero_rpow (by norm_num : ((1 : ℝ) / 32) ≠ 0)]
  simp only [commuteTerm]
  rw [if_pos hd]
  ring

theorem score_tEvict_uExpensive : tEvict.desirability uExpensive pNice = 0 :=
  desirability_eq_zero _ _ _ (by decide)

theorem score_tEvict_uEmptied : tEvict.desirability uEmptied pNice = 0 :=
  desirability_eq_zero _ _ _ (by decide)

theorem score_tEvict_uOffer : tEvict.desirability uOffer pNice = 4 := by
  rw [desirability_simple tEvict uOffer pNice (by decide)
    (by rw [show (max 1 (uOffer.rent / (uOffer.tenants.card + 1)) : ℕ) = 50 from by decide]
        norm_num [tEvict])
    (by rw [show ((uOffer.tenants.card + 1 : ℕ) : ℝ) = 1 from by
          norm_num [uOffer, uBase]]
        norm_num [uOffer, uBase, MIN_AREA])
    (distance_self pos00)]
  norm_num [pNice, uOffer, uBase]

theorem score_tFree_uBase : tFree.desirability uBase pPlain = 1 := by
  rw [desirability_simple tFree uBase pPlain (by decide)
    (by rw [show (max 1 (uBase.rent / (uBase.tenants.card + 1)) : ℕ) = 1 from by decide]
        norm_num [tFree])
    (by rw [show ((uBase.tenants.card + 1 : ℕ) : ℝ) = 1 from by
          norm_num [uBase]]
        norm_num [uBase, MIN_AREA])
    (distance_self pos00)]
  norm_num [pPlain, uBase]

theorem foldGo_nil (t : Tenant) (city : City) (acc : ℕ × ℝ) :
    foldGo t city [] acc = some acc := rfl

theorem foldGo_cons (t : Tenant) (city : City) (x : ℕ) (xs : List ℕ) (acc : ℕ × ℝ) :
    foldGo t city (x :: xs) acc = (foldBody t city acc x).bind (foldGo t city xs) := by
  unfold foldGo
  rw [List.foldlM_cons]
  rfl

theorem foldBody_eval (t : Tenant) (city : City) (acc : ℕ × ℝ) (uId : ℕ)
    (u : Unit) (p : Parcel)
    (hu : city.units[uId]? = some u) (hp : city.parcel u.pos = some p) :
    foldBody t city acc uId =
      if u.vacancies ≤ 0 then some acc
      else if t.desirability u p > acc.2 then some (uId, t.desirability u p)
      else some acc := by
  unfold foldBody
  rw [hu, Option.some_bind, hp, Option.some_bind]

/-- C2 (amended): a housed tenant whose current unit's score is 0 and who is
not at a lease boundary vacates inside the same step call — it is removed from
the unit's occupant set, the unit id is pushed onto the vacancy pool, and
`unit` becomes `None` — and the search then runs in that same call, but with
the standard moving penalty 10 and `current_desirability = 0`, NOT the
unhoused treatment (penalty 0): agent.rs line 41 initialises
`moving_penalty = MOVING_PENALTY` and the eviction branch (lines 69-74) never
resets it. -/
theorem forced_eviction_vacates_then_searches
    (t : Tenant) (city : City) (month : ℕ) (pool sample : List ℕ) (uId : ℕ)
    (u : Unit) (p : Parcel)
    (hu : t.unit = some uId)
    (hlk : city.units[uId]? = some u)
    (hnb : ¬(tenantElapsed month u.leaseMonth > 0 ∧
      tenantElapsed month u.leaseMonth % 12 = 0))
    (hp : city.parcel u.pos = some p)
    (hd : t.desirability u p = 0) :
    Tenant.step t city month pool sample =
      Tenant.search { t with unit := none }
        { city with
            units := city.units.set uId { u with tenants := u.tenants.erase t.id } }
        (pool ++ [uId]) sample MOVING_PENALTY 0 := by
  unfold Tenant.step
  rw [hu]
  dsimp only
  rw [hlk, Option.some_bind, if_neg hnb, hp, Option.some_bind, if_pos hd]
  unfold vacate
  rw [hlk, Option.some_bind, Option.some_bind]

/-- Witness for C2 (amended): the income-50 tenant in the rent-200 unit (score
0) vacates at month 1 and searches with penalty 10. -/
theorem forced_eviction_witness :
    Tenant.step tEvict cityEvict 1 [1] [1, 0] =
      Tenant.search { tEvict with unit := none }
        { cityEvict with
            units := cityEvict.units.set 0
              { uExpensive with tenants := uExpensive.tenants.erase tEvict.id } }
        ([1] ++ [0]) [1, 0] MOVING_PENALTY 0 :=
  forced_eviction_vacates_then_searches tEvict cityEvict 1 [1] [1, 0] 0 uExpensive
    pNice rfl (by decide) (by decide) (by decide) score_tEvict_uExpensive

theorem search_evict_eval :
    Tenant.search { tEvict with unit := none } cityEvictAfter [1, 0] [1, 0]
      MOVING_PENALTY 0 =
      some ({ tEvict with unit := none }, cityEvictAfter, [1, 0]) := by
  have hfold : foldStep { tEvict with unit := none } cityEvictAfter [1, 0] =
      some (1, 4) := by
    unfold foldStep
    rw [foldGo_cons, foldBody_eval _ _ _ 1 uOffer pNice (by decide) (by decide),
      if_neg (by decide : ¬(uOffer.vacancies ≤ 0)),
      desirability_unit_irrel, score_tEvict_uOffer,
      if_pos (by norm_num : (4 : ℝ) > ((0 : ℕ), (0 : ℝ)).2), Option.some_bind,
      foldGo_cons,
      foldBody_eval _ _ _ 0 uEmptied pNice (by decide) (by decide),
      if_neg (by decide : ¬(uEmptied.vacancies ≤ 0)),
      desirability_unit_irrel, score_tEvict_uEmptied,
      if_neg (by norm_num : ¬((0 : ℝ) > ((1 : ℕ), (4 : ℝ)).2)), Option.some_bind,
      foldGo_nil]
  unfold Tenant.search
  rw [if_pos (by decide : ([1, 0] : List ℕ).length > 0),
    if_pos (by decide : sampleOk [1, 0] [1, 0]), hfold, Option.some_bind,
    if_neg (by norm_num [MOVING_PENALTY] :
      ¬(((1 : ℕ), (4 : ℝ)).2 > 0 ∧ ((1 : ℕ), (4 : ℝ)).2 - MOVING_PENALTY > 0))]

theorem step_tEvict_eval :
    Tenant.step tEvict cityEvict 1 [1] [1, 0] =
      some ({ tEvict with unit := none }, cityEvictAfter, [1, 0]) := by
  unfold Tenant.step
  rw [show tEvict.unit = some 0 from rfl]
  dsimp only
  rw [show cityEvict.units[0]? = some uExpensive from by decide, Option.some_bind,
    if_neg (by decide : ¬(tenantElapsed 1 uExpensive.leaseMonth > 0 ∧
      tenantElapsed 1 uExpensive.leaseMonth % 12 = 0)),
    show cityEvict.parcel uExpensive.pos = some pNice from by decide,
    Option.some_bind, if_pos score_tEvict_uExpensive]
  unfold vacate
  rw [show cityEvict.units[0]? = some uExpensive from by decide, Option.some_bind,
    Option.some_bind]
  dsimp only
  rw [show ({ cityEvict with
        units := cityEvict.units.set 0
          { uExpensive with tenants := uExpensive.tenants.erase tEvict.id } } : City) =
      cityEvictAfter from by decide,
    show ([1] ++ [0] : List ℕ) = [1, 0] from rfl]
  exact search_evict_eval

theorem spec_evict_eval :
    specEvictionStep tEvict 0 cityEvict [1] [1, 0] =
      some ({ tEvict with unit := some 1 }, cityEvictSpecAfter, [0]) := by
  unfold specEvictionStep vacate
  rw [show cityEvict.units[0]? = some uExpensive from by decide, Option.some_bind,
    Option.some_bind]
  dsimp only
  rw [show ({ cityEvict with
        units := cityEvict.units.set 0
          { uExpensive with tenants := uExpensive.tenants.erase tEvict.id } } : City) =
      cityEvictAfter from by decide,
    show ([1] ++ [0] : List ℕ) = [1, 0] from rfl]
  have hfold : foldStep { tEvict with unit := none } cityEvictAfter [1, 0] =
      some (1, 4) := by
    unfold foldStep
    rw [foldGo_cons, foldBody_eval _ _ _ 1 uOffer pNice (by decide) (by decide),
      if_neg (by decide : ¬(uOffer.vacancies ≤ 0)),
      desirability_unit_irrel, score_tEvict_uOffer,
      if_pos (by norm_num : (4 : ℝ) > ((0 : ℕ), (0 : ℝ)).2), Option.some_bind,
      foldGo_cons,
      foldBody_eval _ _ _ 0 uEmptied pNice (by decide) (by decide),
      if_neg (by decide : ¬(uEmptied.vacancies ≤ 0)),
      desirability_unit_irrel, score_tEvict_uEmptied,
      if_neg (by norm_num : ¬((0 : ℝ) > ((1 : ℕ), (4 : ℝ)).2)), Option.some_bind,
      foldGo_nil]
  unfold Tenant.search
  rw [if_pos (by decide : ([1, 0] : List ℕ).length > 0),
    if_pos (by decide : sampleOk [1, 0] [1, 0]), hfold, Option.some_bind,
    if_pos (by norm_num :
      (((1 : ℕ), (4 : ℝ)).2 > 0 ∧ ((1 : ℕ), (4 : ℝ)).2 - 0 > 0))]
  decide

/-- Counterexample for C2: on the forced-eviction input the code's step leaves
the tenant unhoused (best offer 4 does not beat the moving penalty 10), while
the step prescribed by the spec's words — vacate, then search with no moving
penalty — would house the tenant in unit 1: the two disagree. -/
theorem forced_eviction_penalty_cex :
    Tenant.step tEvict cityEvict 1 [1] [1, 0] ≠
      specEvictionStep tEvict 0 cityEvict [1] [1, 0] := by
  rw [step_tEvict_eval, spec_evict_eval]
  decide

theorem step_twinL :
    Tenant.step tFree cityTwin 0 [0, 1] [0, 1] =
      some ({ tFree with unit := some 0 }, cityTwinL, [1]) := by
  unfold Tenant.step
  rw [show tFree.unit = none from rfl]
  dsimp only
  have hfold : foldStep tFree cityTwin [0, 1] = some (0, 1) := by
    unfold foldStep
    rw [foldGo_cons, foldBody_eval _ _ _ 0 uBase pPlain (by decide) (by decide),
      if_neg (by decide : ¬(uBase.vacancies ≤ 0)), score_tFree_uBase,
      if_pos (by norm_num : (1 : ℝ) > ((0 : ℕ), (0 : ℝ)).2), Option.some_bind,
      foldGo_cons, foldBody_eval _ _ _ 1 uBase pPlain (by decide) (by decide),
      if_neg (by decide : ¬(uBase.vacancies ≤ 0)), score_tFree_uBase,
      if_neg (by norm_num : ¬((1 : ℝ) > ((0 : ℕ), (1 : ℝ)).2)), Option.some_bind,
      foldGo_nil]
  unfold Tenant.search
  rw [if_pos (by decide : ([0, 1] : List ℕ).length > 0),
    if_pos (by decide : sampleOk [0, 1] [0, 1]), hfold, Option.some_bind,
    if_pos (by norm_num :
      (((0 : ℕ), (1 : ℝ)).2 > 0 ∧ ((0 : ℕ), (1 : ℝ)).2 - 0 > -1))]
  decide

theorem step_twinR :
    Tenant.step tFree cityTwin 0 [0, 1] [1, 0] =
      some ({ tFree with unit := some 1 }, cityTwinR, [0]) := by
  unfold Tenant.step
  rw [show tFree.unit = none from rfl]
  dsimp only
  have hfold : foldStep tFree cityTwin [1, 0] = some (1, 1) := by
    unfold foldStep
    rw [foldGo_cons, foldBody_eval _ _ _ 1 uBase pPlain (by decide) (by decide),
      if_neg (by decide : ¬(uBase.vacancies ≤ 0)), score_tFree_uBase,
      if_pos (by norm_num : (1 : ℝ) > ((0 : ℕ), (0 : ℝ)).2), Option.some_bind,
      foldGo_cons, foldBody_eval _ _ _ 0 uBase pPlain (by decide) (by decide),
      if_neg (by decide : ¬(uBase.vacancies ≤ 0)), score_tFree_uBase,
      if_neg (by norm_num : ¬((1 : ℝ) > ((1 : ℕ), (1 : ℝ)).2)), Option.some_bind,
      foldGo_nil]
  unfold Tenant.search
  rw [if_pos (by decide : ([0, 1] : List ℕ).length > 0),
    if_pos (by decide : sampleOk [1, 0] [0, 1]), hfold, Option.some_bind,
    if_pos (by norm_num :
      (((1 : ℕ), (1 : ℝ)).2 > 0 ∧ ((1 : ℕ), (1 : ℝ)).2 - 0 > -1))]
  decide

/-- Counterexample for C3: two executions of the same tenant step from the
same state, with the same (fixed) seed and iteration order, that differ only
in the order in which `rand::thread_rng()` happened to sample the pool,
produce different final states — so the per-agent steps do NOT draw their
randomness from the run's single seeded source (main.rs seeds a `StdRng`, but
agent.rs lines 42 and 177 call `rand::thread_rng()`), and a fixed seed does
not make the run reproducible. -/
theorem thread_rng_divergence_cex :
    Tenant.step tFree cityTwin 0 [0, 1] [0, 1] ≠
      Tenant.step tFree cityTwin 0 [0, 1] [1, 0] := by
  rw [step_twinL, step_twinR]
  decide

/-- C3 (amended): each per-agent step is a deterministic function of the
simulation state and the explicit thread-RNG draws — the draw `[1, 0]` fully
determines this step's outcome — but the draws come from a fresh
`rand::thread_rng()` per step, not from the run's seeded `StdRng`, so a run is
reproducible only when the per-step draw sequences are fixed along with the
seed. -/
theorem reproducible_given_draws :
    Tenant.step tFree cityTwin 0 [0, 1] [1, 0] =
      some ({ tFree with unit := some 1 }, cityTwinR, [0]) :=
  step_twinR

theorem foldBody_cases (t : Tenant) (city : City) (acc acc₁ : ℕ × ℝ) (x : ℕ)
    (hb : foldBody t city acc x = some acc₁) :
    ∃ u p, city.units[x]? = some u ∧ city.parcel u.pos = some p ∧
      ((u.vacancies ≤ 0 ∧ acc₁ = acc) ∨
        (0 < u.vacancies ∧
          ((t.desirability u p > acc.2 ∧ acc₁ = (x, t.desirability u p)) ∨
            (¬(t.desirability u p > acc.2) ∧ acc₁ = acc)))) := by
  unfold foldBody at hb
  rcases hlk : city.units[x]? with _ | u
  · rw [hlk] at hb
    exact absurd hb (by simp)
  · rw [hlk, Option.some_bind] at hb
    rcases hpk : city.parcel u.pos with _ | p
    · rw [hpk] at hb
      exact absurd hb (by simp)
    · rw [hpk, Option.some_bind] at hb
      refine ⟨u, p, rfl, hpk, ?_⟩
      by_cases hv : u.vacancies ≤ 0
      · rw [if_pos hv] at hb
        exact Or.inl ⟨hv, (Option.some.inj hb).symm⟩
      · rw [if_neg hv] at hb
        refine Or.inr ⟨not_le.mp hv, ?_⟩
        by_cases hgt : t.desirability u p > acc.2
        · rw [if_pos hgt] at hb
          exact Or.inl ⟨hgt, (Option.some.inj hb).symm⟩
        · rw [if_neg hgt] at hb
          exact Or.inr ⟨hgt, (Option.some.inj hb).symm⟩

theorem foldGo_sound (t : Tenant) (city : City) (sample : List ℕ) :
    ∀ (acc res : ℕ × ℝ), foldGo t city sample acc = some res →
      acc.2 ≤ res.2 ∧
      (res = acc ∨ (res.1 ∈ sample ∧ ∃ u p, city.units[res.1]? = some u ∧
        city.parcel u.pos = some p ∧ 0 < u.vacancies ∧
        res.2 = t.desirability u p)) := by
  induction sample with
  | nil =>
    intro acc res h
    obtain rfl := Option.some.inj h
    exact ⟨le_refl _, Or.inl rfl⟩
  | cons x xs ih =>
    intro acc res h
    rw [foldGo_cons] at h
    obtain ⟨acc₁, hb, hrest⟩ := Option.bind_eq_some.mp h
    obtain ⟨u, p, hlk, hpk, hcase⟩ := foldBody_cases t city acc acc₁ x hb
    obtain ⟨h1, h2⟩ := ih acc₁ res hrest
    rcases hcase with ⟨hv, rfl⟩ | ⟨hv, hcase⟩
    · exact ⟨h1, h2.imp id (fun hg => ⟨List.mem_cons_of_mem x hg.1, hg.2⟩)⟩
    · rcases hcase with ⟨hgt, rfl⟩ | ⟨hgt, rfl⟩
      · constructor
        · exact le_trans (le_of_lt hgt) h1
        · rcases h2 with rfl | hg
          · exact Or.inr ⟨List.mem_cons_self x xs, u, p, hlk, hpk, hv, rfl⟩
          · exact Or.inr ⟨List.mem_cons_of_mem x hg.1, hg.2⟩
      · exact ⟨h1, h2.imp id (fun hg => ⟨List.mem_cons_of_mem x hg.1, hg.2⟩)⟩

theorem foldGo_ge (t : Tenant) (city : City) (sample : List ℕ) :
    ∀ (acc res : ℕ × ℝ), foldGo t city sample acc = some res →
      ∀ j ∈ sample, ∀ u p, city.units[j]? = some u → city.parcel u.pos = some p →
        0 < u.vacancies → t.desirability u p ≤ res.2 := by
  induction sample with
  | nil =>
    intro acc res _ j hj
    exact absurd hj (List.not_mem_nil j)
  | cons x xs ih =>
    intro acc res h j hj u p hu hp hv
    rw [foldGo_cons] at h
    obtain ⟨acc₁, hb, hrest⟩ := Option.bind_eq_some.mp h
    rcases List.mem_cons.mp hj with rfl | hj'
    · obtain ⟨u', p', hlk, hpk, hcase⟩ := foldBody_cases t city acc acc₁ j hb
      obtain rfl : u' = u := Option.some.inj (hlk.symm.trans hu)
      obtain rfl : p' = p := Option.some.inj (hpk.symm.trans hp)
      have hmono := (foldGo_sound t city xs acc₁ res hrest).1
      rcases hcase with ⟨hv0, _⟩ | ⟨_, hcase⟩
      · exact absurd hv0 (not_le.mpr hv)
      · rcases hcase with ⟨hgt, rfl⟩ | ⟨hle, rfl⟩
        · exact le_trans (le_refl _) hmono
        · exact le_trans (not_lt.mp hle) hmono
    · exact ih acc₁ res hrest j hj' u p hu hp hv

/-- C10: at a 12-month lease boundary the current unit's desirability is never
computed — the step reduces to the search with `current_desirability = 0` and
the moving penalty 10 (agent.rs lines 40-41, 64, 95) — and for any fold result
the move guard `best > 0 && best - penalty > 0` holds iff some sampled unit
with a free slot scores strictly above the penalty, whatever the current
unit's actual score is. -/
theorem lease_boundary_zero_current
    (t : Tenant) (city : City) (month : ℕ) (pool sample : List ℕ) (uId : ℕ)
    (u : Unit)
    (hu : t.unit = some uId) (hlk : city.units[uId]? = some u)
    (hb : tenantElapsed month u.leaseMonth > 0 ∧
      tenantElapsed month u.leaseMonth % 12 = 0) :
    Tenant.step t city month pool sample =
      Tenant.search t city pool sample MOVING_PENALTY 0 ∧
    ∀ bid bd, foldStep t city sample = some (bid, bd) →
      ((bd > 0 ∧ bd - MOVING_PENALTY > 0) ↔
        ∃ j ∈ sample, ∃ u' p', city.units[j]? = some u' ∧
          city.parcel u'.pos = some p' ∧ 0 < u'.vacancies ∧
          MOVING_PENALTY < t.desirability u' p') := by
  have hM : MOVING_PENALTY = (10 : ℝ) := rfl
  constructor
  · unfold Tenant.step
    rw [hu]
    dsimp only
    rw [hlk, Option.some_bind, if_pos hb]
  · intro bid bd hf
    constructor
    · rintro ⟨hpos, hgt⟩
      rcases (foldGo_sound t city sample ((0 : ℕ), (0 : ℝ)) (bid, bd) hf).2 with heq | hg
      · exfalso
        have : bd = 0 := congrArg Prod.snd heq
        rw [this] at hpos
        exact lt_irrefl 0 hpos
      · obtain ⟨hmem, u', p', hu', hp', hv', hdval⟩ := hg
        refine ⟨bid, hmem, u', p', hu', hp', hv', ?_⟩
        have : (bd : ℝ) = t.desirability u' p' := hdval
        rw [← this, hM]
        rw [hM] at hgt
        linarith
    · rintro ⟨j, hj, u', p', hu', hp', hv', hgt⟩
      have hle := foldGo_ge t city sample ((0 : ℕ), (0 : ℝ)) (bid, bd) hf j hj u' p' hu' hp' hv'
      have hbd : MOVING_PENALTY < bd := lt_of_lt_of_le hgt hle
      rw [hM] at hbd
      rw [hM]
      constructor
      · linarith
      · linarith

/-- Witness for C10: the housed tenant at its 12-month lease boundary reduces
to the penalty-10, current-0 search. -/
theorem lease_boundary_zero_current_witness :
    Tenant.step tLease cityLease 12 [1] [1] =
      Tenant.search tLease cityLease [1] [1] MOVING_PENALTY 0 :=
  (lease_boundary_zero_current tLease cityLease 12 [1] [1] 0 uLeased rfl
    (by decide) (by decide)).1

theorem triple_inj {α β γ : Type} {a a' : α} {b b' : β} {c c' : γ}
    (h : (some (a, b, c) : Option (α × β × γ)) = some (a', b', c')) :
    a = a' ∧ b = b' ∧ c = c' := by
  injection h with h1
  injection h1 with h2 h3
  injection h3 with h4 h5
  exact ⟨h2, h4, h5⟩

theorem onlyTouches_refl (c : City) (tid : ℕ) : OnlyTouches c c tid := by
  refine ⟨rfl, ?_⟩
  intro j u u' hu hu' x _
  obtain rfl := Option.some.inj (hu.symm.trans hu')
  exact Iff.rfl

theorem onlyTouches_trans {a b c : City} {tid : ℕ}
    (h1 : OnlyTouches a b tid) (h2 : OnlyTouches b c tid) :
    OnlyTouches a c tid := by
  obtain ⟨hl1, hm1⟩ := h1
  obtain ⟨hl2, hm2⟩ := h2
  refine ⟨hl2.trans hl1, ?_⟩
  intro j u u' hu hu' x hx
  have hj : j < a.units.length := (List.getElem?_eq_some.mp hu).1
  have hj2 : j < b.units.length := by omega
  obtain ⟨u₁, hu₁⟩ := List.getElem?_eq_some.mp (List.getElem?_eq_getElem hj2)
  have hb1 : b.units[j]? = some (b.units.get ⟨j, hj2⟩) := List.getElem?_eq_getElem hj2
  exact ((hm2 j _ u' hb1 hu' x hx).trans (hm1 j u _ hu hb1 x hx))

theorem sameOcc_refl (c : City) : SameOcc c c := by
  refine ⟨rfl, ?_⟩
  intro j u u' hu hu'
  obtain rfl := Option.some.inj (hu.symm.trans hu')
  exact ⟨rfl, rfl⟩

theorem sameOcc_trans {a b c : City} (h1 : SameOcc a b) (h2 : SameOcc b c) :
    SameOcc a c := by
  obtain ⟨hl1, hm1⟩ := h1
  obtain ⟨hl2, hm2⟩ := h2
  refine ⟨hl2.trans hl1, ?_⟩
  intro j u u' hu hu'
  have hj : j < a.units.length := (List.getElem?_eq_some.mp hu).1
  have hj2 : j < b.units.length := by omega
  have hb1 : b.units[j]? = some (b.units.get ⟨j, hj2⟩) := List.getElem?_eq_getElem hj2
  obtain ⟨t2, o2⟩ := hm2 j _ u' hb1 hu'
  obtain ⟨t1, o1⟩ := hm1 j u _ hu hb1
  exact ⟨t2.trans t1, o2.trans o1⟩

theorem sameOcc_set (c : City) (i : ℕ) (u u' : Unit)
    (hlk : c.units[i]? = some u)
    (ht : u'.tenants = u.tenants) (ho : u'.occupancy = u.occupancy) :
    SameOcc c { c with units := c.units.set i u' } := by
  refine ⟨List.length_set .., ?_⟩
  intro j v v' hv hv'
  have hv'' : (c.units.set i u')[j]? = some v' := hv'
  rw [List.getElem?_set] at hv''
  by_cases hij : i = j
  · subst hij
    rw [if_pos rfl, if_pos (List.getElem?_eq_some.mp hlk).1] at hv''
    obtain rfl := Option.some.inj hv''
    obtain rfl : u = v := Option.some.inj (hlk.symm.trans hv)
    exact ⟨ht, ho⟩
  · rw [if_neg hij] at hv''
    obtain rfl := Option.some.inj (hv.symm.trans hv'')
    exact ⟨rfl, rfl⟩

theorem manageUnit_preserves (month : ℕ) (u u' : Unit)
    (h : manageUnit month u = some u') :
    u'.tenants = u.tenants ∧ u'.occupancy = u.occupancy := by
  unfold manageUnit at h
  by_cases hv : u.tenants.card = 0
  · rw [if_pos hv] at h
    dsimp only at h
    by_cases h2 : (u.monthsVacant + 1) % 2 = 0
    · rw [if_pos h2] at h
      obtain rfl := Option.some.inj h
      exact ⟨rfl, rfl⟩
    · rw [if_neg h2] at h
      obtain rfl := Option.some.inj h
      exact ⟨rfl, rfl⟩
  · rw [if_neg hv] at h
    rcases hcs : checkedSub month u.leaseMonth with _ | e
    · rw [hcs] at h
      exact absurd h (by simp)
    · rw [hcs, Option.some_bind] at h
      by_cases hb2 : e > 0 ∧ e % 12 = 0
      · rw [if_pos hb2] at h
        obtain rfl := Option.some.inj h
        exact ⟨rfl, rfl⟩
      · rw [if_neg hb2] at h
        obtain rfl := Option.some.inj h
        exact ⟨rfl, rfl⟩

theorem maintFold_sameOcc (m : ℚ) (draws : List (ℕ × ℚ)) :
    ∀ c c' : City, maintFold m draws c = some c' → SameOcc c c' := by
  induction draws with
  | nil =>
    intro c c' h
    obtain rfl := Option.some.inj h
    exact sameOcc_refl c
  | cons d ds ih =>
    intro c c' h
    unfold maintFold at h
    rw [List.foldlM_cons] at h
    obtain ⟨c₁, hb, hrest⟩ := Option.bind_eq_some.mp h
    rcases hlk : c.units[d.1]? with _ | u
    · rw [hlk] at hb
      exact absurd hb (by simp)
    · rw [hlk, Option.some_bind] at hb
      obtain rfl := Option.some.inj hb
      exact sameOcc_trans (sameOcc_set c d.1 u (maintainUnit m d.2 u) hlk rfl rfl)
        (ih _ c' hrest)

theorem manageFold_sameOcc (month : ℕ) (draws : List (ℕ × ℚ)) :
    ∀ c c' : City, manageFold month draws c = some c' → SameOcc c c' := by
  induction draws with
  | nil =>
    intro c c' h
    obtain rfl := Option.some.inj h
    exact sameOcc_refl c
  | cons d ds ih =>
    intro c c' h
    unfold manageFold at h
    rw [List.foldlM_cons] at h
    obtain ⟨c₁, hb, hrest⟩ := Option.bind_eq_some.mp h
    rcases hlk : c.units[d.1]? with _ | u
    · rw [hlk] at hb
      exact absurd hb (by simp)
    · rw [hlk, Option.some_bind] at hb
      obtain ⟨u', hmu, hb⟩ := Option.bind_eq_some.mp hb
      obtain rfl := Option.some.inj hb
      obtain ⟨ht, ho⟩ := manageUnit_preserves month u u' hmu
      exact sameOcc_trans (sameOcc_set c d.1 u u' hlk ht ho) (ih _ c' hrest)

theorem landlordCityStep_sameOcc (m : ℚ) (month : ℕ) (draws : List (ℕ × ℚ))
    (c c' : City) (h : landlordCityStep m month draws c = some c') :
    SameOcc c c' := by
  unfold landlordCityStep at h
  obtain ⟨c₁, h1, h2⟩ := Option.bind_eq_some.mp h
  exact sameOcc_trans (maintFold_sameOcc m draws c c₁ h1)
    (manageFold_sameOcc month draws c₁ c' h2)

theorem consistent_of_sameOcc (c c' : City) (pool : List ℕ) (tens : List Tenant)
    (hso : SameOcc c c') (h : Consistent ⟨c, pool, tens⟩) :
    Consistent ⟨c', pool, tens⟩ := by
  obtain ⟨hlen, hocc⟩ := hso
  constructor
  · intro i u' hu'
    dsimp only at hu' ⊢
    have hi : i < c.units.length := by
      have := (List.getElem?_eq_some.mp hu').1
      omega
    have hu : c.units[i]? = some (c.units.get ⟨i, hi⟩) := List.getElem?_eq_getElem hi
    obtain ⟨ht, ho⟩ := hocc i _ u' hu hu'
    rw [ht, ho]
    exact h.pool_iff i _ hu
  · intro u' hu'
    dsimp only at hu'
    obtain ⟨j, hj⟩ := List.mem_iff_getElem?.mp hu'
    have hjlt : j < c.units.length := by
      have := (List.getElem?_eq_some.mp hj).1
      omega
    have hu : c.units[j]? = some (c.units.get ⟨j, hjlt⟩) := List.getElem?_eq_getElem hjlt
    obtain ⟨ht, ho⟩ := hocc j _ u' hu hj
    rw [ht, ho]
    exact h.occ_le _ (List.getElem?_mem hu)
  · intro i hi
    dsimp only at hi ⊢
    have h2 : i < c.units.length := h.pool_lt i hi
    omega
  · intro t ht i hti
    dsimp only at ht ⊢
    obtain ⟨u, hu0, hmem⟩ := h.housed t ht i hti
    have hu : c.units[i]? = some u := hu0
    have hi : i < c.units.length := (List.getElem?_eq_some.mp hu).1
    have hi' : i < c'.units.length := by omega
    have hu' : c'.units[i]? = some (c'.units.get ⟨i, hi'⟩) := List.getElem?_eq_getElem hi'
    obtain ⟨htn, _⟩ := hocc i u _ hu hu'
    exact ⟨_, hu', htn ▸ hmem⟩
  · exact h.ids_nodup

theorem set_lookup (c : City) (i : ℕ) (ue : Unit) (hilt : i < c.units.length) :
    ∀ j, ({ c with units := c.units.set i ue } : City).units[j]? =
      if i = j then some ue else c.units[j]? := by
  intro j
  show (c.units.set i ue)[j]? = _
  rw [List.getElem?_set]
  by_cases hij : i = j
  · rw [if_pos hij, if_pos hij, if_pos (hij ▸ hilt)]
  · rw [if_neg hij, if_neg hij]

theorem vacate_spec (tid uId : ℕ) (c : City) (pool : List ℕ) (u : Unit)
    (hcp : CPInv c pool) (hlk : c.units[uId]? = some u) (hmem : tid ∈ u.tenants) :
    vacate tid uId c pool =
      some ({ c with units := c.units.set uId { u with tenants := u.tenants.erase tid } },
        pool ++ [uId]) ∧
    CPInv { c with units := c.units.set uId { u with tenants := u.tenants.erase tid } }
      (pool ++ [uId]) ∧
    OnlyTouches c
      { c with units := c.units.set uId { u with tenants := u.tenants.erase tid } }
      tid := by
  obtain ⟨hpi, hoc, hpl⟩ := hcp
  have hilt : uId < c.units.length := (List.getElem?_eq_some.mp hlk).1
  have hlook := set_lookup c uId { u with tenants := u.tenants.erase tid } hilt
  have humem : u ∈ c.units := List.getElem?_mem hlk
  have hcard : u.tenants.card ≤ u.occupancy := hoc u humem
  have hpos : 0 < u.tenants.card := Finset.card_pos.mpr ⟨tid, hmem⟩
  have herase : (u.tenants.erase tid).card = u.tenants.card - 1 :=
    Finset.card_erase_of_mem hmem
  refine ⟨?_, ⟨?_, ?_, ?_⟩, ?_, ?_⟩
  · unfold vacate
    rw [hlk, Option.some_bind]
  · intro i v hv
    rw [hlook i] at hv
    by_cases hij : uId = i
    · rw [if_pos hij] at hv
      obtain rfl := Option.some.inj hv
      subst hij
      refine iff_of_true (List.mem_append_right pool (List.mem_singleton.mpr rfl)) ?_
      show (u.tenants.erase tid).card < u.occupancy
      rw [herase]
      omega
    · rw [if_neg hij] at hv
      have hiff := hpi i v hv
      constructor
      · intro hin
        rcases List.mem_append.mp hin with h1 | h1
        · exact hiff.mp h1
        · exact absurd (List.mem_singleton.mp h1) (fun hc => hij hc.symm)
      · intro hc
        exact List.mem_append_left _ (hiff.mpr hc)
  · intro v hvmem
    rcases List.mem_or_eq_of_mem_set hvmem with h1 | h1
    · exact hoc v h1
    · subst h1
      show (u.tenants.erase tid).card ≤ u.occupancy
      rw [herase]
      omega
  · intro i hi
    show i < (c.units.set uId _).length
    rw [List.length_set]
    rcases List.mem_append.mp hi with h1 | h1
    · exact hpl i h1
    · rw [List.mem_singleton.mp h1]
      exact hilt
  · exact List.length_set ..
  · intro j v v' hv hv' x hx
    rw [hlook j] at hv'
    by_cases hij : uId = j
    · rw [if_pos hij] at hv'
      obtain rfl := Option.some.inj hv'
      subst hij
      obtain rfl := Option.some.inj (hlk.symm.trans hv)
      show x ∈ u.tenants.erase tid ↔ x ∈ u.tenants
      rw [Finset.mem_erase]
      exact ⟨fun h => h.2, fun h => ⟨hx, h⟩⟩
    · rw [if_neg hij] at hv'
      obtain rfl := Option.some.inj (hv.symm.trans hv')
      exact Iff.rfl

theorem movein_spec (tid bid : ℕ) (c : City) (pool : List ℕ) (u : Unit)
    (hcp : CPInv c pool) (hlk : c.units[bid]? = some u)
    (hfree : u.tenants.card < u.occupancy) (hin : bid ∈ pool) :
    CPInv { c with units := c.units.set bid { u with tenants := insert tid u.tenants } }
      (if ({ u with tenants := insert tid u.tenants } : Unit).vacancies = 0
        then pool.filter (fun j => j ≠ bid) else pool) ∧
    OnlyTouches c
      { c with units := c.units.set bid { u with tenants := insert tid u.tenants } }
      tid := by
  obtain ⟨hpi, hoc, hpl⟩ := hcp
  have hilt : bid < c.units.length := (List.getElem?_eq_some.mp hlk).1
  have hlook := set_lookup c bid { u with tenants := insert tid u.tenants } hilt
  have hcard' : (insert tid u.tenants).card ≤ u.occupancy := by
    calc (insert tid u.tenants).card ≤ u.tenants.card + 1 := Finset.card_insert_le ..
      _ ≤ u.occupancy := by omega
  have hvz : (({ u with tenants := insert tid u.tenants } : Unit).vacancies = 0) ↔
      (insert tid u.tenants).card = u.occupancy := by
    show ((u.occupancy : ℤ) - ((insert tid u.tenants).card : ℤ) = 0) ↔ _
    omega
  refine ⟨⟨?_, ?_, ?_⟩, ?_, ?_⟩
  · intro i v hv
    rw [hlook i] at hv
    by_cases hij : bid = i
    · rw [if_pos hij] at hv
      obtain rfl := Option.some.inj hv
      subst hij
      by_cases hz : ({ u with tenants := insert tid u.tenants } : Unit).vacancies = 0
      · rw [if_pos hz]
        refine iff_of_false ?_ ?_
        · intro hmem'
          have := (List.mem_filter.mp hmem').2
          simp at this
        · have heq : (insert tid u.tenants).card = u.occupancy := hvz.mp hz
          show ¬((insert tid u.tenants).card < u.occupancy)
          omega
      · rw [if_neg hz]
        refine iff_of_true hin ?_
        have hne : (insert tid u.tenants).card ≠ u.occupancy := fun hc => hz (hvz.mpr hc)
        show (insert tid u.tenants).card < u.occupancy
        omega
    · rw [if_neg hij] at hv
      have hiff := hpi i v hv
      by_cases hz : ({ u with tenants := insert tid u.tenants } : Unit).vacancies = 0
      · rw [if_pos hz, List.mem_filter]
        constructor
        · intro hmf
          exact hiff.mp hmf.1
        · intro hc
          refine ⟨hiff.mpr hc, ?_⟩
          have hne : i ≠ bid := fun hc2 => hij hc2.symm
          simp [hne]
      · rw [if_neg hz]
        exact hiff
  · intro v hv
    rcases List.mem_or_eq_of_mem_set hv with h1 | h1
    · exact hoc v h1
    · subst h1
      exact hcard'
  · intro i hi
    show i < (c.units.set bid _).length
    rw [List.length_set]
    by_cases hz : ({ u with tenants := insert tid u.tenants } : Unit).vacancies = 0
    · rw [if_pos hz] at hi
      exact hpl i (List.mem_of_mem_filter hi)
    · rw [if_neg hz] at hi
      exact hpl i hi
  · exact List.length_set ..
  · intro j v v' hv hv' x hx
    rw [hlook j] at hv'
    by_cases hij : bid = j
    · rw [if_pos hij] at hv'
      obtain rfl := Option.some.inj hv'
      subst hij
      obtain rfl := Option.some.inj (hlk.symm.trans hv)
      show x ∈ insert tid u.tenants ↔ x ∈ u.tenants
      rw [Finset.mem_insert]
      exact ⟨fun h => h.resolve_left hx, fun h => Or.inr h⟩
    · rw [if_neg hij] at hv'
      obtain rfl := Option.some.inj (hv.symm.trans hv')
      exact Iff.rfl

theorem search_spec (t : Tenant) (c : City) (pool sample : List ℕ) (pen cur : ℝ)
    (hcp : CPInv c pool) (hres : Resides t c) :
    ∀ t' c' pool', Tenant.search t c pool sample pen cur = some (t', c', pool') →
      CPInv c' pool' ∧ OnlyTouches c c' t.id ∧ t'.id = t.id ∧ Resides t' c' := by
  intro t' c' pool' h
  unfold Tenant.search at h
  by_cases hpl : pool.length > 0
  swap
  · rw [if_neg hpl] at h
    obtain ⟨rfl, rfl, rfl⟩ := triple_inj h
    exact ⟨hcp, onlyTouches_refl c t.id, rfl, hres⟩
  rw [if_pos hpl] at h
  by_cases hso : sampleOk sample pool
  swap
  · rw [if_neg hso] at h
    exact absurd h (by simp)
  rw [if_pos hso] at h
  obtain ⟨best, hf, h⟩ := Option.bind_eq_some.mp h
  by_cases hgd : best.2 > 0 ∧ best.2 - pen > cur
  swap
  · rw [if_neg hgd] at h
    obtain ⟨rfl, rfl, rfl⟩ := triple_inj h
    exact ⟨hcp, onlyTouches_refl c t.id, rfl, hres⟩
  rw [if_pos hgd] at h
  have hf' : foldGo t c sample ((0 : ℕ), (0 : ℝ)) = some best := hf
  have hbest : best.1 ∈ sample ∧ ∃ u p, c.units[best.1]? = some u ∧
      c.parcel u.pos = some p ∧ 0 < u.vacancies ∧ best.2 = t.desirability u p := by
    rcases (foldGo_sound t c sample ((0 : ℕ), (0 : ℝ)) best hf').2 with heq | hg
    · exfalso
      have h0 : best.2 = 0 := by rw [heq]
      rw [h0] at hgd
      exact lt_irrefl 0 hgd.1
    · exact hg
  obtain ⟨hmemS, u, p, hu, hp, hv, hd⟩ := hbest
  have hfree : u.tenants.card < u.occupancy := by
    have h1 : (0 : ℤ) < (u.occupancy : ℤ) - (u.tenants.card : ℤ) := hv
    omega
  have hinpool : best.1 ∈ pool := by
    obtain ⟨hlen, hcount⟩ := hso
    have hc1 : 0 < sample.count best.1 := List.count_pos_iff.mpr hmemS
    have hc2 := hcount best.1 hmemS
    have hc3 : 0 < pool.count best.1 := by omega
    exact List.count_pos_iff.mp hc3
  rcases hunit : t.unit with _ | uIdOld
  · rw [hunit] at h
    dsimp only at h
    rw [Option.some_bind, hu, Option.some_bind] at h
    dsimp only at h
    obtain ⟨rfl, rfl, rfl⟩ := triple_inj h
    obtain ⟨hcpi, hot⟩ := movein_spec t.id best.1 c pool u hcp hu hfree hinpool
    refine ⟨hcpi, hot, rfl, ?_⟩
    intro i hi
    obtain rfl := Option.some.inj hi
    refine ⟨{ u with tenants := insert t.id u.tenants }, ?_,
      Finset.mem_insert_self t.id u.tenants⟩
    rw [set_lookup c best.1 _ (List.getElem?_eq_some.mp hu).1, if_pos rfl]
  · rw [hunit] at h
    dsimp only at h
    obtain ⟨u₀, hu₀, hmem₀⟩ := hres uIdOld hunit
    obtain ⟨hveq, hcp₁, hot₁⟩ := vacate_spec t.id uIdOld c pool u₀ hcp hu₀ hmem₀
    rw [hveq, Option.some_bind] at h
    dsimp only at h
    have hlook₁ := set_lookup c uIdOld { u₀ with tenants := u₀.tenants.erase t.id }
      (List.getElem?_eq_some.mp hu₀).1
    have hin₁ : best.1 ∈ pool ++ [uIdOld] := List.mem_append_left _ hinpool
    by_cases holdbest : uIdOld = best.1
    · have hu₀' : c.units[best.1]? = some u₀ := holdbest ▸ hu₀
      obtain rfl : u₀ = u := Option.some.inj (hu₀'.symm.trans hu)
      have hlkb : ({ c with
          units := c.units.set uIdOld { u₀ with tenants := u₀.tenants.erase t.id } } :
            City).units[best.1]? =
          some { u₀ with tenants := u₀.tenants.erase t.id } := by
        rw [hlook₁ best.1, if_pos holdbest]
      rw [hlkb, Option.some_bind] at h
      try dsimp only at h
      obtain ⟨rfl, rfl, rfl⟩ := triple_inj h
      have hfree₁ : ({ u₀ with tenants := u₀.tenants.erase t.id } : Unit).tenants.card <
          ({ u₀ with tenants := u₀.tenants.erase t.id } : Unit).occupancy := by
        show (u₀.tenants.erase t.id).card < u₀.occupancy
        calc (u₀.tenants.erase t.id).card ≤ u₀.tenants.card := Finset.card_erase_le
          _ < u₀.occupancy := hfree
      obtain ⟨hcp₂, hot₂⟩ :=
        movein_spec t.id best.1 _ (pool ++ [uIdOld]) _ hcp₁ hlkb hfree₁ hin₁
      refine ⟨hcp₂, onlyTouches_trans hot₁ hot₂, rfl, ?_⟩
      intro i hi
      obtain rfl := Option.some.inj hi
      refine ⟨{ u₀ with tenants := insert t.id (u₀.tenants.erase t.id) }, ?_,
        Finset.mem_insert_self t.id _⟩
      rw [set_lookup _ best.1 _ (hcp₁.2.2 best.1 hin₁), if_pos rfl]
    · have hlkb : ({ c with
          units := c.units.set uIdOld { u₀ with tenants := u₀.tenants.erase t.id } } :
            City).units[best.1]? = some u := by
        rw [hlook₁ best.1, if_neg holdbest]
        exact hu
      rw [hlkb, Option.some_bind] at h
      try dsimp only at h
      obtain ⟨rfl, rfl, rfl⟩ := triple_inj h
      obtain ⟨hcp₂, hot₂⟩ :=
        movein_spec t.id best.1 _ (pool ++ [uIdOld]) u hcp₁ hlkb hfree hin₁
      refine ⟨hcp₂, onlyTouches_trans hot₁ hot₂, rfl, ?_⟩
      intro i hi
      obtain rfl := Option.some.inj hi
      refine ⟨{ u with tenants := insert t.id u.tenants }, ?_,
        Finset.mem_insert_self t.id _⟩
      rw [set_lookup _ best.1 _ (hcp₁.2.2 best.1 hin₁), if_pos rfl]

theorem step_spec (t : Tenant) (c : City) (month : ℕ) (pool sample : List ℕ)
    (hcp : CPInv c pool) (hres : Resides t c) :
    ∀ t' c' pool', Tenant.step t c month pool sample = some (t', c', pool') →
      CPInv c' pool' ∧ OnlyTouches c c' t.id ∧ t'.id = t.id ∧ Resides t' c' := by
  intro t' c' pool' h
  unfold Tenant.step at h
  rcases hunit : t.unit with _ | uId
  · rw [hunit] at h
    exact search_spec t c pool sample 0 (-1) hcp hres t' c' pool' h
  · rw [hunit] at h
    dsimp only at h
    obtain ⟨u, hu, hmem⟩ := hres uId hunit
    rw [hu, Option.some_bind] at h
    by_cases hbd : tenantElapsed month u.leaseMonth > 0 ∧
        tenantElapsed month u.leaseMonth % 12 = 0
    · rw [if_pos hbd] at h
      exact search_spec t c pool sample MOVING_PENALTY 0 hcp hres t' c' pool' h
    · rw [if_neg hbd] at h
      rcases hpk : c.parcel u.pos with _ | p
      · rw [hpk] at h
        exact absurd h (by simp)
      · rw [hpk, Option.some_bind] at h
        by_cases hz : t.desirability u p = 0
        · rw [if_pos hz] at h
          obtain ⟨heq, hcp₁, hot₁⟩ := vacate_spec t.id uId c pool u hcp hu hmem
          rw [heq, Option.some_bind] at h
          dsimp only at h
          have hres₁ : Resides { t with unit := none }
              { c with units := c.units.set uId { u with tenants := u.tenants.erase t.id } } :=
            fun i hi => Option.noConfusion hi
          obtain ⟨hcp₂, hot₂, hid₂, hres₂⟩ :=
            search_spec { t with unit := none } _ (pool ++ [uId]) sample
              MOVING_PENALTY 0 hcp₁ hres₁ t' c' pool' h
          exact ⟨hcp₂, onlyTouches_trans hot₁ hot₂, hid₂, hres₂⟩
        · rw [if_neg hz] at h
          obtain ⟨rfl, rfl, rfl⟩ := triple_inj h
          exact ⟨hcp, onlyTouches_refl c t.id, rfl, hres⟩

theorem map_id_set (l : List Tenant) (idx : ℕ) (a t : Tenant)
    (ht : l[idx]? = some t) (hid : a.id = t.id) :
    (l.set idx a).map Tenant.id = l.map Tenant.id := by
  apply List.ext_getElem?
  intro j
  rw [List.getElem?_map, List.getElem?_map, List.getElem?_set]
  by_cases hj : idx = j
  · subst hj
    rw [if_pos rfl, if_pos (List.getElem?_eq_some.mp ht).1, ht]
    simp [hid]
  · rw [if_neg hj]

theorem stepCmd_consistent (s : SimState) (cmd : Cmd) (hc : Consistent s) :
    ∀ s', stepCmd s cmd = some s' → Consistent s' := by
  intro s' h
  cases cmd with
  | tenant idx month sample =>
    unfold stepCmd at h
    obtain ⟨t, ht, h⟩ := Option.bind_eq_some.mp h
    obtain ⟨r, hr, h⟩ := Option.bind_eq_some.mp h
    obtain rfl := Option.some.inj h
    have hcp : CPInv s.city s.pool := ⟨hc.pool_iff, hc.occ_le, hc.pool_lt⟩
    have htm : t ∈ s.tenants := List.getElem?_mem ht
    have hres : Resides t s.city := fun i hi => hc.housed t htm i hi
    obtain ⟨hcp', hot, hid, hres'⟩ :=
      step_spec t s.city month s.pool sample hcp hres r.1 r.2.1 r.2.2 hr
    have hidx : idx < s.tenants.length := (List.getElem?_eq_some.mp ht).1
    constructor
    · exact fun i u hu => hcp'.1 i u hu
    · exact hcp'.2.1
    · exact hcp'.2.2
    · intro x hx i hi
      obtain ⟨j, hj⟩ := List.mem_iff_getElem?.mp hx
      rw [List.getElem?_set] at hj
      by_cases hji : idx = j
      · subst hji
        rw [if_pos rfl, if_pos hidx] at hj
        obtain rfl := Option.some.inj hj
        exact hres' i hi
      · rw [if_neg hji] at hj
        have hxid : x.id ≠ t.id := by
          intro hxe
          have hmj : (s.tenants.map Tenant.id)[j]? = some x.id := by
            rw [List.getElem?_map, hj]
            rfl
          have hmi : (s.tenants.map Tenant.id)[idx]? = some x.id := by
            rw [List.getElem?_map, ht, hxe]
            rfl
          have hlen : idx < (s.tenants.map Tenant.id).length := by
            rw [List.length_map]
            exact hidx
          have heq2 : (s.tenants.map Tenant.id)[idx]? =
              (s.tenants.map Tenant.id)[j]? := by rw [hmi, hmj]
          exact hji (List.getElem?_inj hlen hc.ids_nodup heq2)
        obtain ⟨u, hu, hmem⟩ := hc.housed x (List.getElem?_mem hj) i hi
        have hilt : i < r.2.1.units.length := by
          rw [hot.1]
          exact (List.getElem?_eq_some.mp hu).1
        have hu' : r.2.1.units[i]? = some (r.2.1.units[i]) :=
          List.getElem?_eq_getElem hilt
        exact ⟨r.2.1.units[i], hu', (hot.2 i u _ hu hu' x.id hxid).mpr hmem⟩
    · show ((s.tenants.set idx r.1).map Tenant.id).Nodup
      rw [map_id_set s.tenants idx r.1 t ht hid]
      exact hc.ids_nodup
  | landlord month maintenance unitDraws =>
    unfold stepCmd at h
    obtain ⟨c', hcs, h⟩ := Option.bind_eq_some.mp h
    obtain rfl := Option.some.inj h
    exact consistent_of_sameOcc s.city c' s.pool s.tenants
      (landlordCityStep_sameOcc maintenance month unitDraws s.city c' hcs) hc

theorem run_consistent (cmds : List Cmd) :
    ∀ s, Consistent s → ∀ s', run s cmds = some s' → Consistent s' := by
  induction cmds with
  | nil =>
    intro s hc s' h
    obtain rfl := Option.some.inj h
    exact hc
  | cons cmd cs ih =>
    intro s hc s' h
    obtain ⟨s₁, h1, h2⟩ := Option.bind_eq_some.mp h
    exact ih s₁ (stepCmd_consistent s cmd hc s₁ h1) s' h2

theorem maintain_demoUnit : maintainUnit 0 0 demoUnit = demoUnit := by
  unfold maintainUnit
  have hc : min (max (demoUnit.condition - 0 * (1 / 10) + 0) 0) 1 =
      demoUnit.condition := by
    norm_num [demoUnit, uBase]
  rw [hc]

theorem manage_demoUnit : manageUnit 1 demoUnit =
    some { demoUnit with monthsVacant := 1 } := by
  norm_num [manageUnit, demoUnit, uBase]

theorem stepCmd_demo : stepCmd demoState (Cmd.landlord 1 0 [(0, 0)]) =
    some demoState1 := by
  simp only [stepCmd, landlordCityStep, maintFold, manageFold, List.foldlM_cons,
    List.foldlM_nil, demoState, demoState1, List.getElem?_cons_zero,
    Option.some_bind, bind_pure, List.set_cons_zero]
  rw [maintain_demoUnit]
  rw [manage_demoUnit, Option.some_bind]
  rfl

theorem run_demo : run demoState demoCmds = some demoState1 := by
  show (stepCmd demoState (Cmd.landlord 1 0 [(0, 0)])).bind
    (fun s' => run s' []) = some demoState1
  rw [stepCmd_demo, Option.some_bind]
  rfl

theorem demo_consistent : Consistent demoState := by
  constructor
  · intro i u hu
    cases i with
    | zero =>
      obtain rfl := Option.some.inj hu
      decide
    | succ n => exact absurd hu (by simp [demoState])
  · intro u hu
    have hud : u = demoUnit := by simpa [demoState] using hu
    subst hud
    decide
  · intro i hi
    have hi0 : i = 0 := by simpa [demoState] using hi
    subst hi0
    decide
  · intro t ht
    exact absurd ht (List.not_mem_nil t)
  · decide

/-- C1: vacancy-pool consistency.  After any sequence of tenant and landlord
steps (with their thread-RNG draws made explicit) that completes without a
panic, starting from a consistent state, every unit's identifier is a member
of the vacancy pool if and only if the unit has at least one free occupant
slot (`tenants.card < occupancy`). -/
theorem vacancy_pool_consistency (s s' : SimState) (cmds : List Cmd)
    (hc : Consistent s) (hrun : run s cmds = some s') :
    poolConsistent s' :=
  (run_consistent cmds s hc s' hrun).pool_iff

theorem vacancy_pool_consistency_witness :
    Consistent demoState ∧ run demoState demoCmds = some demoState1 ∧
      poolConsistent demoState1 :=
  ⟨demo_consistent, run_demo,
    vacancy_pool_consistency demoState demoState1 demoCmds demo_consistent run_demo⟩

end

end DomaPlay
